import Mathlib

/-!
Verification development for the `autotask_images` repository.

The two node variants (`gitee_images.py`, `uploader_postimage.py`) are
shallowly embedded below.  External effects (the Gitee HTTP API, the
PostImage browser page) are abstracted as oracle parameters; everything
else is translated directly from the Python source.
-/

namespace AutotaskImages

/- ## Character-level utilities modelling Python string primitives -/

/-- Whitespace characters removed by Python's `str.strip()` (ASCII range). -/
def wsChars : List Char := [' ', '\t', '\n', '\r', '\x0B', '\x0C']

def isWs (c : Char) : Bool := wsChars.contains c

def isSlash (c : Char) : Bool := c == '/'

/-- Strip leading characters satisfying `p` (Python left strip). -/
def lstripC (p : Char → Bool) (l : List Char) : List Char := l.dropWhile p

/-- Strip trailing characters satisfying `p`. -/
def rstripC (p : Char → Bool) (l : List Char) : List Char :=
  (l.reverse.dropWhile p).reverse

/-- Python `s.strip(chars)`: remove the characters from both ends. -/
def pyStrip (p : Char → Bool) (l : List Char) : List Char :=
  rstripC p (lstripC p l)

/-- Python `s.split('/')` on the character list. -/
def splitSlash : List Char → List (List Char)
  | [] => [[]]
  | c :: cs =>
    if c == '/' then [] :: splitSlash cs
    else
      match splitSlash cs with
      | p :: ps => (c :: p) :: ps
      | [] => [[c]]

/-- Drop an expected leading run of characters; `none` when it is not there.
Models the anchored literal part of a `re.match` pattern. -/
def dropPre : List Char → List Char → Option (List Char)
  | [], s => some s
  | _ :: _, [] => none
  | p :: ps, c :: cs => if c == p then dropPre ps cs else none

/-- Python's substring test `pat in l`: `pat` occurs contiguously in `l`. -/
def containsSeq (pat : List Char) : List Char → Bool
  | [] => pat.isEmpty
  | c :: cs => (dropPre pat (c :: cs)).isSome || containsSeq pat cs

/- ## The repository-URL parser (`GiteeImageUploader._parse_repo_url`) -/

def gitTok : List Char := ['.', 'g', 'i', 't']

/-- Effect of the regex tail `([^/]+?)(\.git)?$` on the final segment:
one trailing `.git` is stripped when something non-empty remains before it. -/
def stripDotGit (r : List Char) : List Char :=
  if 4 < r.length ∧ r.drop (r.length - 4) = gitTok then r.take (r.length - 4)
  else r

/-- The common regex tail `([^/]+)/([^/]+?)(\.git)?$`: exactly two non-empty
slash-free segments, the second with an optional `.git` suffix stripped. -/
def matchTwoSegs (t : List Char) : Option (List Char × List Char) :=
  match splitSlash t with
  | [a, r] => if a ≠ [] ∧ r ≠ [] then some (a, stripDotGit r) else none
  | _ => none

def sshLead : List Char := "git@gitee.com:".data

def giteeTok : List Char := "gitee.com".data

def giteeLead : List Char := "gitee.com/".data

/-- Case 2 of `_parse_repo_url`: `^git@gitee\.com:([^/]+)/([^/]+?)(\.git)?$`. -/
def sshCase (url : List Char) : Option (List Char × List Char) :=
  match dropPre sshLead url with
  | some t => matchTwoSegs t
  | none => none

/-- The optional scheme alternation `(https?://|git://)?` of case 3. -/
def dropScheme (url : List Char) : List Char :=
  match dropPre "https://".data url with
  | some t => t
  | none =>
    match dropPre "http://".data url with
    | some t => t
    | none =>
      match dropPre "git://".data url with
      | some t => t
      | none => url

/-- Case 3 of `_parse_repo_url`:
`^(https?://|git://)?gitee\.com/([^/]+)/([^/]+?)(\.git)?$`. -/
def urlCase (url : List Char) : Option (List Char × List Char) :=
  match dropPre giteeLead (dropScheme url) with
  | some t => matchTwoSegs t
  | none => none

/-- Case 1 of `_parse_repo_url`: plain `owner/repo`, attempted only when the
string has a `/` and none of `:`, `@`, `gitee.com`; returns the first two
`/`-separated fields when there are at least two. -/
def case1 (url : List Char) : Option (List Char × List Char) :=
  if url.contains '/' && !url.contains ':' && !url.contains '@'
      && !containsSeq giteeTok url then
    match splitSlash url with
    | a :: b :: _ => some (a, b)
    | _ => none
  else none

/-- Characters acceptable in an owner or repository name for the round-trip
statements: not strip-whitespace, not a separator, and not one of the tokens
the parser dispatches on. -/
def goodChar (c : Char) : Prop :=
  isWs c = false ∧ c ≠ '/' ∧ c ≠ ':' ∧ c ≠ '@'

instance decGoodChar (c : Char) : Decidable (goodChar c) :=
  inferInstanceAs (Decidable (isWs c = false ∧ c ≠ '/' ∧ c ≠ ':' ∧ c ≠ '@'))

/-- The `ValueError` message raised when no format matches. -/
def invalidMsg : String :=
  "Invalid repository URL format. Supported formats: owner/repo, https://gitee.com/owner/repo, git@gitee.com:owner/repo"

/-- Model of `GiteeImageUploader._parse_repo_url`, character-list level:
strip whitespace then slashes, then try the three cases in order. -/
def parseRepoChars (raw : List Char) : Option (List Char × List Char) :=
  let url := pyStrip isSlash (pyStrip isWs raw)
  match case1 url with
  | some ab => some ab
  | none =>
    match sshCase url with
    | some ab => some ab
    | none => urlCase url

/-- Model of `GiteeImageUploader._parse_repo_url` at the `String` level; a raised
`ValueError` is modelled as `Except.error` carrying its message. -/
def parseRepoUrl (s : String) : Except String (String × String) :=
  match parseRepoChars s.data with
  | some (a, b) => .ok (String.mk a, String.mk b)
  | none => .error invalidMsg

/- ## Shared slot collection (`_get_valid_image_paths`, both variants) -/

/-- Node inputs: the workflow engine's mapping of named string fields.
A key absent from the dict is `none`. -/
def NodeInputs : Type := String → Option String

/-- Model of `GiteeImageUploader._get_valid_image_paths`: the `(index, path)` pairs for
`img1..img8` keys that are present with a truthy (non-empty) value. -/
def getValidImagePaths (ni : NodeInputs) : List (Nat × String) :=
  (List.range' 1 8).filterMap fun i =>
    match ni ("img" ++ Nat.repr i) with
    | some v => if v = "" then none else some (i, v)
    | none => none

/-- Model of `PostImageUploader._get_valid_image_paths`: identical code in the second
source file. -/
def getValidImagePathsPI (ni : NodeInputs) : List (Nat × String) :=
  (List.range' 1 8).filterMap fun i =>
    match ni ("img" ++ Nat.repr i) with
    | some v => if v = "" then none else some (i, v)
    | none => none

/- ## The Gitee REST variant (`gitee_images.py`) -/

/-- A calendar timestamp, standing in for `datetime.now()`. -/
structure PyDateTime where
  year : Nat
  month : Nat
  day : Nat

/-- Python `f"{n:02d}"`. -/
def pad2 (n : Nat) : String :=
  if n < 10 then "0" ++ Nat.repr n else Nat.repr n

/-- Model of `GiteeImageUploader._get_target_dir`. -/
def getTargetDir (now : PyDateTime) : String :=
  "images/" ++ Nat.repr now.year ++ "/" ++ pad2 now.month ++ "/" ++ pad2 now.day

/-- Python `os.path.basename`: the part after the last `/`. -/
def basename (p : String) : String :=
  String.mk ((p.data.reverse.takeWhile fun c => !(c == '/')).reverse)

/-- Outcome of one `_upload_single_image` call (the per-image result dict). -/
structure UploadResult where
  index : Nat
  success : Bool
  url : String
  error_message : String

/-- The Gitee HTTP exchange, abstracted: given owner, repo, target directory,
slot index and path, the network either yields a `download_url` or raises
(readable as the exception text seen by the handler inside
`_upload_single_image`). -/
def GiteeOracle : Type := String → String → String → Nat → String → Except String String

/-- Model of `GiteeImageUploader._upload_single_image`: its internal `try/except`
converts any raised error into a failure result whose message names the slot
index and the file's basename. -/
def uploadSingleImage (oracle : GiteeOracle) (owner repo targetDir : String)
    (index : Nat) (imagePath : String) : UploadResult :=
  match oracle owner repo targetDir index imagePath with
  | .ok url => ⟨index, true, url, ""⟩
  | .error e =>
    ⟨index, false, "",
      "Failed to upload image " ++ Nat.repr index ++ " (" ++ basename imagePath
        ++ "): " ++ e⟩

/-- The result dict assembled by `GiteeImageUploader.execute`. -/
structure GiteeOutcome where
  urls : Nat → String
  success : Bool
  error_message : String

/-- The sequential upload loop of `GiteeImageUploader.execute`: on success the
slot's URL is recorded; on failure the flag and message are set and the loop
breaks. -/
def uploadLoopG (oracle : GiteeOracle) (owner repo targetDir : String) :
    List (Nat × String) → GiteeOutcome → GiteeOutcome
  | [], acc => acc
  | (index, imagePath) :: rest, acc =>
    let r := uploadSingleImage oracle owner repo targetDir index imagePath
    if r.success then
      uploadLoopG oracle owner repo targetDir rest
        { acc with urls := fun j => if j = index then r.url else acc.urls j }
    else
      { acc with success := false, error_message := r.error_message }

/-- The all-URL-slots-empty failure record of `GiteeImageUploader.execute`. -/
def giteeFailure (msg : String) : GiteeOutcome :=
  ⟨fun _ => "", false, msg⟩

/-- The `try` body of `GiteeImageUploader.execute`; a raised exception is an
`Except.error` carrying `str(e)` (a missing `repo_url` key raises `KeyError`,
whose text is `'repo_url'`). -/
def executeBodyG (now : PyDateTime) (oracle : GiteeOracle) (ni : NodeInputs) :
    Except String GiteeOutcome :=
  let imagePaths := getValidImagePaths ni
  if imagePaths.isEmpty then
    .error "At least one image path must be provided"
  else
    match ni "repo_url" with
    | none => .error "'repo_url'"
    | some repoUrl =>
      match parseRepoUrl repoUrl with
      | .error e => .error e
      | .ok (owner, repo) =>
        .ok (uploadLoopG oracle owner repo (getTargetDir now) imagePaths
          ⟨fun _ => "", true, ""⟩)

/-- Model of `GiteeImageUploader.execute`: the outermost `except` converts any raised
error into the standard failure record. -/
def executeGitee (now : PyDateTime) (oracle : GiteeOracle) (ni : NodeInputs) :
    GiteeOutcome :=
  match executeBodyG now oracle ni with
  | .ok r => r
  | .error e => giteeFailure ("Failed to process images: " ++ e)

/- ## The PostImage browser variant (`uploader_postimage.py`) -/

/-- The result dict of `PostImageUploader` (note `success` is a string). -/
structure PIOutcome where
  urls : Nat → String
  success : String
  error_message : String

/-- The all-slots-empty failure record of the PostImage variant. -/
def piFailure (msg : String) : PIOutcome :=
  ⟨fun _ => "", "false", msg⟩

/-- Python `s.endswith(t)`. -/
def endswith (s t : String) : Bool := t.data.isSuffixOf s.data

/-- The `?dl=1` post-processing applied to each extracted URL. -/
def appendDl (u : String) : String :=
  if endswith u "?dl=1" then u else u ++ "?dl=1"

/-- The loop mapping extracted URLs to their slots in `_upload_images`. -/
def assignUrls : List ((Nat × String) × String) → (Nat → String) → Nat → String
  | [], f => f
  | ((index, _), u) :: rest, f =>
    assignUrls rest fun j => if j = index then appendDl u else f j

/-- The browser interaction up to reading `#code_box`, abstracted: it either
raises (navigation/timeout failure) or yields the list of direct URLs that
`re.findall` extracts from the text box. -/
def PageOracle : Type := Except String (List String)

/-- Model of `PostImageUploader._upload_images`: count-check the extracted URLs, then
zip them with the submitted `(index, path)` pairs, appending `?dl=1` when
absent; any raised error becomes the all-empty failure record. -/
def uploadImagesPI (page : PageOracle) (imagePaths : List (Nat × String)) :
    PIOutcome :=
  match page with
  | .error e => piFailure ("Failed to upload images: " ++ e)
  | .ok directUrls =>
    if directUrls.isEmpty || !(directUrls.length == imagePaths.length) then
      piFailure ("Failed to upload images: Expected " ++ Nat.repr imagePaths.length
        ++ " URLs but found " ++ Nat.repr directUrls.length)
    else
      ⟨assignUrls (imagePaths.zip directUrls) fun _ => "", "true", ""⟩

/-- The browser session of `PostImageUploader.execute`, abstracted: launching
the browser may itself raise before `_upload_images` runs. -/
def SessionOracle : Type := Except String PageOracle

/-- The `try` body of `PostImageUploader.execute`. -/
def executeBodyPI (session : SessionOracle) (ni : NodeInputs) :
    Except String PIOutcome :=
  let imagePaths := getValidImagePathsPI ni
  if imagePaths.isEmpty then
    .error "At least one image path must be provided"
  else
    match session with
    | .error e => .error e
    | .ok page => .ok (uploadImagesPI page imagePaths)

/-- Model of `PostImageUploader.execute`: the outermost `except` yields the standard failure record. -/
def executePostImage (session : SessionOracle) (ni : NodeInputs) : PIOutcome :=
  match executeBodyPI session ni with
  | .ok r => r
  | .error e => piFailure ("Failed to process images: " ++ e)

/- ## Accepted locator shapes, modelled from the spec (for refinement claims) -/

/-- Modelled from the spec: the bare `owner/repo` shape of §4.1 — exactly two
non-empty `/`-separated fields. -/
def specBare (u : List Char) : Bool :=
  match splitSlash u with
  | [a, b] => !a.isEmpty && !b.isEmpty
  | _ => false

/-- Modelled from the spec: the SSH shape `git@gitee.com:owner/repo[.git]`
with owner and repo non-empty and slash-free. -/
def specSsh (u : List Char) : Bool :=
  match dropPre sshLead u with
  | some t =>
    match splitSlash t with
    | [a, b] => !a.isEmpty && !b.isEmpty
    | _ => false
  | none => false

/-- Modelled from the spec: the URL shape
`[scheme://]gitee.com/owner/repo[.git]` with owner and repo non-empty and
slash-free. -/
def specUrl (u : List Char) : Bool :=
  match dropPre giteeLead (dropScheme u) with
  | some t =>
    match splitSlash t with
    | [a, b] => !a.isEmpty && !b.isEmpty
    | _ => false
  | none => false

/-- Modelled from the spec: a locator matching one of the three accepted
shapes of §4.1, up to the surrounding whitespace/slash trimming the
algorithm performs first. -/
def specAcceptedLocator (s : String) : Bool :=
  let u := pyStrip isSlash (pyStrip isWs s.data)
  specBare u || specSsh u || specUrl u

/- ## Concrete sample data used by witnesses -/

/-- Sample node inputs: slots 1, 4, 7 present, plus a repository locator. -/
def niSample : NodeInputs := fun k =>
  if k = "img1" then some "/tmp/a.png"
  else if k = "img4" then some "/tmp/b.png"
  else if k = "img7" then some "/tmp/c.png"
  else if k = "repo_url" then some "alice/pics"
  else none

/-- Sample node inputs with no present slots. -/
def niEmpty : NodeInputs := fun _ => none

/-- Sample oracle: the upload of slot 1 succeeds, any later one raises. -/
def oracleSample : GiteeOracle := fun _ _ _ i _ =>
  if i = 1 then .ok "https://gitee.com/alice/pics/raw/a.png" else .error "boom"

def nowSample : PyDateTime := ⟨2024, 1, 2⟩

/-- Node inputs with slots 1 and 2 present (for the C7 witness). -/
def niTwo : NodeInputs := fun k =>
  if k = "img1" then some "/tmp/a.png"
  else if k = "img2" then some "/tmp/b.png"
  else none

/-- Node inputs with only slot 1 present (for the C8 witness). -/
def niOne : NodeInputs := fun k =>
  if k = "img1" then some "/tmp/a.png" else none

/-- Proof-side accumulator: the URL map produced by a run of successful
uploads, used to characterise `uploadLoopG` on a successful prefix. -/
def applyOk (oracle : GiteeOracle) (owner repo td : String) :
    List (Nat × String) → (Nat → String) → Nat → String
  | [], f => f
  | (i, p) :: rest, f =>
    applyOk oracle owner repo td rest
      fun j =>
        if j = i then (uploadSingleImage oracle owner repo td i p).url else f j

example : getValidImagePaths niSample
    = [(1, "/tmp/a.png"), (4, "/tmp/b.png"), (7, "/tmp/c.png")] := rfl
example : (executeGitee nowSample oracleSample niSample).success = false := rfl
example : (executeGitee nowSample oracleSample niSample).urls 1
    = "https://gitee.com/alice/pics/raw/a.png" := rfl
example : (executeGitee nowSample oracleSample niSample).urls 4 = "" := rfl
example : (executeGitee nowSample oracleSample niSample).error_message
    = "Failed to upload image 4 (b.png): boom" := rfl
example : getTargetDir nowSample = "images/2024/01/02" := rfl
example : appendDl "https://i.postimg.cc/abc/x.png"
    = "https://i.postimg.cc/abc/x.png?dl=1" := rfl
example : appendDl "https://i.postimg.cc/abc/x.png?dl=1"
    = "https://i.postimg.cc/abc/x.png?dl=1" := rfl

/- ## Lemmas about slot collection -/

theorem getValidImagePaths_mem (ni : NodeInputs) (i : Nat) (v : String) :
    (i, v) ∈ getValidImagePaths ni ↔
      1 ≤ i ∧ i ≤ 8 ∧ ni ("img" ++ Nat.repr i) = some v ∧ v ≠ "" := by
  unfold getValidImagePaths
  rw [List.mem_filterMap]
  constructor
  · rintro ⟨a, ha, hfa⟩
    rw [List.mem_range'_1] at ha
    cases h : ni ("img" ++ Nat.repr a) with
    | none => rw [h] at hfa; simp at hfa
    | some w =>
      rw [h] at hfa
      by_cases hw : w = ""
      · simp [hw] at hfa
      · simp only [if_neg hw, Option.some.injEq, Prod.mk.injEq] at hfa
        obtain ⟨hia, hwv⟩ := hfa
        subst hia; subst hwv
        exact ⟨ha.1, by omega, h, hw⟩
  · rintro ⟨h1, h8, hni, hv⟩
    refine ⟨i, ?_, ?_⟩
    · rw [List.mem_range'_1]; omega
    · rw [hni]; simp only [if_neg hv]

theorem getValidImagePaths_sorted (ni : NodeInputs) :
    (getValidImagePaths ni).Pairwise fun a b => a.1 < b.1 := by
  unfold getValidImagePaths
  rw [List.pairwise_filterMap]
  refine (List.pairwise_lt_range' 1 8).imp ?_
  intro a a' hlt b hb b' hb'
  have hb1 : b.1 = a := by
    cases h : ni ("img" ++ Nat.repr a) with
    | none => rw [h] at hb; simp at hb
    | some w =>
      rw [h] at hb
      by_cases hw : w = ""
      · simp [hw] at hb
      · simp only [if_neg hw, Option.mem_def, Option.some.injEq] at hb
        rw [← hb]
  have hb2 : b'.1 = a' := by
    cases h : ni ("img" ++ Nat.repr a') with
    | none => rw [h] at hb'; simp at hb'
    | some w =>
      rw [h] at hb'
      by_cases hw : w = ""
      · simp [hw] at hb'
      · simp only [if_neg hw, Option.mem_def, Option.some.injEq] at hb'
        rw [← hb']
  rw [hb1, hb2]; exact hlt

theorem getValidImagePaths_length (ni : NodeInputs) :
    (getValidImagePaths ni).length ≤ 8 := by
  unfold getValidImagePaths
  calc (List.filterMap _ (List.range' 1 8)).length
      ≤ (List.range' 1 8).length := List.length_filterMap_le _ _
    _ = 8 := by simp

/- ## Case-analysis lemmas for the two execute entry points -/

theorem executeGitee_eq (now : PyDateTime) (oracle : GiteeOracle)
    (ni : NodeInputs) :
    executeGitee now oracle ni =
      if (getValidImagePaths ni).isEmpty then
        giteeFailure
          "Failed to process images: At least one image path must be provided"
      else
        match ni "repo_url" with
        | none => giteeFailure "Failed to process images: 'repo_url'"
        | some repoUrl =>
          match parseRepoUrl repoUrl with
          | .error e => giteeFailure ("Failed to process images: " ++ e)
          | .ok (owner, repo) =>
            uploadLoopG oracle owner repo (getTargetDir now)
              (getValidImagePaths ni) ⟨fun _ => "", true, ""⟩ := by
  unfold executeGitee executeBodyG
  by_cases h : (getValidImagePaths ni).isEmpty = true
  · rw [if_pos h, if_pos h]; rfl
  · rw [if_neg h, if_neg h]
    cases ni "repo_url" with
    | none => rfl
    | some repoUrl =>
      dsimp only
      cases parseRepoUrl repoUrl with
      | error e => rfl
      | ok pr => cases pr; rfl

theorem executePostImage_eq (session : SessionOracle) (ni : NodeInputs) :
    executePostImage session ni =
      if (getValidImagePathsPI ni).isEmpty then
        piFailure
          "Failed to process images: At least one image path must be provided"
      else
        match session with
        | .error e => piFailure ("Failed to process images: " ++ e)
        | .ok page => uploadImagesPI page (getValidImagePathsPI ni) := by
  unfold executePostImage executeBodyPI
  by_cases h : (getValidImagePathsPI ni).isEmpty = true
  · rw [if_pos h, if_pos h]; rfl
  · rw [if_neg h, if_neg h]
    cases session with
    | error e => rfl
    | ok page => rfl

/- ## Claims C9 and C10 -/

theorem uploadImagesPI_success_shape (page : PageOracle)
    (l : List (Nat × String)) :
    (uploadImagesPI page l).success = "true" ∨
      (uploadImagesPI page l).success = "false" := by
  cases page with
  | error e => right; rfl
  | ok urls =>
    dsimp only [uploadImagesPI]
    split
    · right; rfl
    · left; rfl

/-- C10: in both variants, slot collection returns exactly the `(i, value)`
pairs for `1 ≤ i ≤ 8` whose key `img{i}` is present with a non-empty value,
in strictly ascending index order; an absent key behaves exactly like an
empty value, and at most 8 pairs are returned. -/
theorem slot_collection_exact :
    (∀ (ni : NodeInputs) (i : Nat) (v : String),
        ((i, v) ∈ getValidImagePaths ni ↔
          1 ≤ i ∧ i ≤ 8 ∧ ni ("img" ++ Nat.repr i) = some v ∧ v ≠ "")) ∧
    (∀ ni : NodeInputs, getValidImagePathsPI ni = getValidImagePaths ni) ∧
    (∀ ni : NodeInputs, (getValidImagePaths ni).Pairwise fun a b => a.1 < b.1) ∧
    (∀ ni : NodeInputs, (getValidImagePaths ni).length ≤ 8) ∧
    (∀ (ni : NodeInputs) (k : String),
        getValidImagePaths (fun s => if s = k then none else ni s)
          = getValidImagePaths fun s => if s = k then some "" else ni s) := by
  refine ⟨getValidImagePaths_mem, fun _ => rfl, getValidImagePaths_sorted,
    getValidImagePaths_length, ?_⟩
  intro ni k
  unfold getValidImagePaths
  refine List.filterMap_congr fun a _ => ?_
  by_cases h : ("img" ++ Nat.repr a) = k <;> simp [h]

/-- C9: the `success` field is a boolean in the Gitee variant and the string
`"true"` or `"false"` in the PostImage variant, on every return path. -/
theorem success_flag_typing :
    (∀ (now : PyDateTime) (oracle : GiteeOracle) (ni : NodeInputs),
        (executeGitee now oracle ni).success = true ∨
          (executeGitee now oracle ni).success = false) ∧
    (∀ (session : SessionOracle) (ni : NodeInputs),
        (executePostImage session ni).success = "true" ∨
          (executePostImage session ni).success = "false") := by
  constructor
  · intro now oracle ni
    rcases Bool.eq_false_or_eq_true (executeGitee now oracle ni).success with h | h
    · exact Or.inl h
    · exact Or.inr h
  · intro session ni
    rw [executePostImage_eq]
    by_cases h : (getValidImagePathsPI ni).isEmpty = true
    · rw [if_pos h]; right; rfl
    · rw [if_neg h]
      cases session with
      | error e => right; rfl
      | ok page => exact uploadImagesPI_success_shape page _

/- ## Claims C6 and C7 -/

/-- C6: with zero present slots, both variants return the no-images failure
record — independent of the network/browser oracle, so before any external
interaction — with every URL slot empty. -/
theorem no_images_short_circuit :
    (∀ (now : PyDateTime) (oracle : GiteeOracle) (ni : NodeInputs),
        getValidImagePaths ni = [] →
        executeGitee now oracle ni =
          giteeFailure
            "Failed to process images: At least one image path must be provided") ∧
    (∀ (session : SessionOracle) (ni : NodeInputs),
        getValidImagePathsPI ni = [] →
        executePostImage session ni =
          piFailure
            "Failed to process images: At least one image path must be provided") := by
  constructor
  · intro now oracle ni h
    rw [executeGitee_eq, h]
    rfl
  · intro session ni h
    rw [executePostImage_eq, h]
    rfl

theorem no_images_short_circuit_witness :
    getValidImagePaths niEmpty = [] ∧
    getValidImagePathsPI niEmpty = [] ∧
    executeGitee nowSample oracleSample niEmpty =
      giteeFailure
        "Failed to process images: At least one image path must be provided" ∧
    executePostImage (.ok (.ok [])) niEmpty =
      piFailure
        "Failed to process images: At least one image path must be provided" :=
  ⟨rfl, rfl, no_images_short_circuit.1 nowSample oracleSample niEmpty rfl,
    no_images_short_circuit.2 (.ok (.ok [])) niEmpty rfl⟩

/-- C7: whenever the count of extracted URLs differs from the count of
submitted files, the PostImage invocation yields the count-mismatch failure
with all URL slots empty, however many URLs were partially extracted. -/
theorem url_count_mismatch_all_empty (ni : NodeInputs) (urls : List String)
    (h : getValidImagePathsPI ni ≠ [])
    (hlen : urls.length ≠ (getValidImagePathsPI ni).length) :
    executePostImage (.ok (.ok urls)) ni =
      piFailure ("Failed to upload images: Expected "
        ++ Nat.repr (getValidImagePathsPI ni).length ++ " URLs but found "
        ++ Nat.repr urls.length) ∧
    (∀ i, (executePostImage (.ok (.ok urls)) ni).urls i = "") ∧
    (executePostImage (.ok (.ok urls)) ni).success = "false" := by
  have he : (getValidImagePathsPI ni).isEmpty = false := by
    simp [List.isEmpty_iff, h]
  have hcond :
      (urls.isEmpty || !(urls.length == (getValidImagePathsPI ni).length))
        = true := by
    simp [hlen]
  have hmain : executePostImage (.ok (.ok urls)) ni =
      piFailure ("Failed to upload images: Expected "
        ++ Nat.repr (getValidImagePathsPI ni).length ++ " URLs but found "
        ++ Nat.repr urls.length) := by
    rw [executePostImage_eq, he]
    dsimp only [uploadImagesPI]
    rw [if_pos hcond]
    rfl
  exact ⟨hmain, fun i => by rw [hmain]; rfl, by rw [hmain]; rfl⟩

theorem url_count_mismatch_witness :
    (executePostImage (.ok (.ok ["https://i.postimg.cc/ab/x.png"])) niTwo).success
        = "false" ∧
    (executePostImage (.ok (.ok ["https://i.postimg.cc/ab/x.png"])) niTwo).urls 1
        = "" ∧
    (executePostImage (.ok (.ok ["https://i.postimg.cc/ab/x.png"])) niTwo).urls 2
        = "" ∧
    (executePostImage (.ok (.ok ["https://i.postimg.cc/ab/x.png"])) niTwo).error_message
        = "Failed to upload images: Expected 2 URLs but found 1" := by
  have h := url_count_mismatch_all_empty niTwo ["https://i.postimg.cc/ab/x.png"]
    (by decide) (by decide)
  refine ⟨h.2.2, h.2.1 1, h.2.1 2, ?_⟩
  rw [h.1]
  rfl

/- ## Claim C5 -/

theorem string_eq_of_data {s t : String} (h : s.data = t.data) : s = t := by
  cases s; cases t; simp_all

theorem append_ne_empty (a b : String) (h : a ≠ "") : a ++ b ≠ "" := by
  intro he
  apply h
  have hd : (a ++ b).data = ([] : List Char) := by rw [he]
  rw [String.data_append] at hd
  exact string_eq_of_data (List.append_eq_nil.mp hd).1

theorem wrap_msg_ne_empty (i : Nat) (p e : String) :
    "Failed to upload image " ++ Nat.repr i ++ " (" ++ basename p ++ "): " ++ e
      ≠ "" :=
  append_ne_empty _ _ (append_ne_empty _ _ (append_ne_empty _ _
    (append_ne_empty "Failed to upload image " _ (by decide))))

theorem mismatch_msg_ne_empty (n m : Nat) :
    "Failed to upload images: Expected " ++ Nat.repr n ++ " URLs but found "
      ++ Nat.repr m ≠ "" :=
  append_ne_empty _ _ (append_ne_empty _ _
    (append_ne_empty "Failed to upload images: Expected " _ (by decide)))

theorem uploadSingleImage_ok (oracle : GiteeOracle) (owner repo td : String)
    (i : Nat) (p u : String) (h : oracle owner repo td i p = .ok u) :
    uploadSingleImage oracle owner repo td i p = ⟨i, true, u, ""⟩ := by
  unfold uploadSingleImage
  rw [h]

theorem uploadSingleImage_err (oracle : GiteeOracle) (owner repo td : String)
    (i : Nat) (p e : String) (h : oracle owner repo td i p = .error e) :
    uploadSingleImage oracle owner repo td i p =
      ⟨i, false, "",
        "Failed to upload image " ++ Nat.repr i ++ " (" ++ basename p
          ++ "): " ++ e⟩ := by
  unfold uploadSingleImage
  rw [h]

theorem uploadLoopG_cons_ok (oracle : GiteeOracle) (owner repo td : String)
    (i : Nat) (p u : String) (rest : List (Nat × String)) (acc : GiteeOutcome)
    (h : oracle owner repo td i p = .ok u) :
    uploadLoopG oracle owner repo td ((i, p) :: rest) acc =
      uploadLoopG oracle owner repo td rest
        { acc with urls := fun j => if j = i then u else acc.urls j } := by
  dsimp only [uploadLoopG]
  rw [uploadSingleImage_ok oracle owner repo td i p u h]
  rfl

theorem uploadLoopG_cons_err (oracle : GiteeOracle) (owner repo td : String)
    (i : Nat) (p e : String) (rest : List (Nat × String)) (acc : GiteeOutcome)
    (h : oracle owner repo td i p = .error e) :
    uploadLoopG oracle owner repo td ((i, p) :: rest) acc =
      { acc with
        success := false
        error_message :=
          "Failed to upload image " ++ Nat.repr i ++ " (" ++ basename p
            ++ "): " ++ e } := by
  dsimp only [uploadLoopG]
  rw [uploadSingleImage_err oracle owner repo td i p e h]
  rfl

theorem uploadLoopG_fail_msg (oracle : GiteeOracle) (owner repo td : String) :
    ∀ (l : List (Nat × String)) (acc : GiteeOutcome),
      (acc.success = false → acc.error_message ≠ "") →
      (uploadLoopG oracle owner repo td l acc).success = false →
      (uploadLoopG oracle owner repo td l acc).error_message ≠ "" := by
  intro l
  induction l with
  | nil => intro acc h hf; exact h hf
  | cons hd tl ih =>
    obtain ⟨index, path⟩ := hd
    intro acc h hf
    cases ho : oracle owner repo td index path with
    | ok u =>
      rw [uploadLoopG_cons_ok oracle owner repo td index path u tl acc ho]
        at hf ⊢
      exact ih _ h hf
    | error e =>
      rw [uploadLoopG_cons_err oracle owner repo td index path e tl acc ho]
        at hf ⊢
      exact wrap_msg_ne_empty index path e

theorem uploadImagesPI_fail_msg (page : PageOracle) (l : List (Nat × String))
    (hf : (uploadImagesPI page l).success = "false") :
    (uploadImagesPI page l).error_message ≠ "" := by
  cases page with
  | error e => exact append_ne_empty _ _ (by decide)
  | ok urls =>
    dsimp only [uploadImagesPI] at hf ⊢
    by_cases hc : (urls.isEmpty || !(urls.length == l.length)) = true
    · rw [if_pos hc]
      exact mismatch_msg_ne_empty l.length urls.length
    · rw [if_neg hc] at hf
      exact absurd hf (by decide : ("true" : String) ≠ "false")

/-- C5: both execute entry points catch any error raised in their body and
return the standard failure-shaped record instead of propagating it; and
whenever either entry point reports failure, the record carries a non-empty
error message. -/
theorem errors_caught_at_boundary :
    (∀ (now : PyDateTime) (oracle : GiteeOracle) (ni : NodeInputs) (e : String),
        executeBodyG now oracle ni = .error e →
        executeGitee now oracle ni =
          giteeFailure ("Failed to process images: " ++ e)) ∧
    (∀ (session : SessionOracle) (ni : NodeInputs) (e : String),
        executeBodyPI session ni = .error e →
        executePostImage session ni =
          piFailure ("Failed to process images: " ++ e)) ∧
    (∀ (now : PyDateTime) (oracle : GiteeOracle) (ni : NodeInputs),
        (executeGitee now oracle ni).success = false →
        (executeGitee now oracle ni).error_message ≠ "") ∧
    (∀ (session : SessionOracle) (ni : NodeInputs),
        (executePostImage session ni).success = "false" →
        (executePostImage session ni).error_message ≠ "") := by
  refine ⟨?_, ?_, ?_, ?_⟩
  · intro now oracle ni e h
    unfold executeGitee
    rw [h]
  · intro session ni e h
    unfold executePostImage
    rw [h]
  · intro now oracle ni
    rw [executeGitee_eq]
    by_cases he : (getValidImagePaths ni).isEmpty = true
    · rw [if_pos he]
      intro _
      decide
    · rw [if_neg he]
      cases ni "repo_url" with
      | none =>
        dsimp only
        intro _
        decide
      | some repoUrl =>
        dsimp only
        cases parseRepoUrl repoUrl with
        | error e =>
          intro _
          exact append_ne_empty "Failed to process images: " e (by decide)
        | ok pr =>
          obtain ⟨owner, repo⟩ := pr
          exact uploadLoopG_fail_msg oracle owner repo (getTargetDir now) _ _
            (fun hs => absurd hs (by decide : ¬(true = false)))
  · intro session ni
    rw [executePostImage_eq]
    by_cases he : (getValidImagePathsPI ni).isEmpty = true
    · rw [if_pos he]
      intro _
      decide
    · rw [if_neg he]
      cases session with
      | error e =>
        intro _
        exact append_ne_empty "Failed to process images: " e (by decide)
      | ok page => exact uploadImagesPI_fail_msg page _

theorem errors_caught_at_boundary_witness :
    executeGitee nowSample oracleSample niEmpty =
      giteeFailure
        "Failed to process images: At least one image path must be provided" ∧
    executePostImage (.ok (.ok [])) niEmpty =
      piFailure
        "Failed to process images: At least one image path must be provided" ∧
    (executeGitee nowSample oracleSample niEmpty).error_message ≠ "" ∧
    (executePostImage (.ok (.ok [])) niEmpty).error_message ≠ "" := by
  refine ⟨?_, ?_, ?_, ?_⟩
  · have h := errors_caught_at_boundary.1 nowSample oracleSample niEmpty
      "At least one image path must be provided" rfl
    rw [h]
    rfl
  · have h := errors_caught_at_boundary.2.1 (.ok (.ok [])) niEmpty
      "At least one image path must be provided" rfl
    rw [h]
    rfl
  · exact errors_caught_at_boundary.2.2.1 nowSample oracleSample niEmpty rfl
  · exact errors_caught_at_boundary.2.2.2 (.ok (.ok [])) niEmpty rfl

/- ## Claim C8 -/

theorem endswith_appendDl (u : String) : endswith (appendDl u) "?dl=1" = true := by
  unfold appendDl
  by_cases h : endswith u "?dl=1" = true
  · rw [if_pos h]; exact h
  · rw [if_neg h]
    unfold endswith
    rw [String.data_append, List.isSuffixOf_iff_suffix]
    exact List.suffix_append _ _

theorem assignUrls_shape (pairs : List ((Nat × String) × String)) :
    ∀ (f : Nat → String) (j : Nat),
      assignUrls pairs f j = f j ∨ ∃ u, assignUrls pairs f j = appendDl u := by
  induction pairs with
  | nil => intro f j; left; rfl
  | cons pr rest ih =>
    obtain ⟨⟨i, p⟩, u⟩ := pr
    intro f j
    dsimp only [assignUrls]
    rcases ih (fun j' => if j' = i then appendDl u else f j') j with h | ⟨u', h⟩
    · rw [h]
      by_cases hj : j = i
      · right; exact ⟨u, by rw [if_pos hj]⟩
      · left; rw [if_neg hj]
    · right; exact ⟨u', h⟩

theorem assignUrls_skip (pairs : List ((Nat × String) × String)) :
    ∀ (f : Nat → String) (j : Nat), (∀ q ∈ pairs, q.1.1 ≠ j) →
      assignUrls pairs f j = f j := by
  induction pairs with
  | nil => intro f j _; rfl
  | cons pr rest ih =>
    obtain ⟨⟨i, p⟩, u⟩ := pr
    intro f j h
    dsimp only [assignUrls]
    rw [ih _ j fun q hq => h q (List.mem_cons_of_mem _ hq)]
    have hne : i ≠ j := h ((i, p), u) (List.mem_cons_self _ _)
    rw [if_neg fun hj => hne hj.symm]

theorem assignUrls_mem (pairs : List ((Nat × String) × String)) :
    ∀ f : Nat → String, (pairs.Pairwise fun a b => a.1.1 < b.1.1) →
      ∀ q ∈ pairs, assignUrls pairs f q.1.1 = appendDl q.2 := by
  induction pairs with
  | nil => intro f _ q hq; cases hq
  | cons pr rest ih =>
    obtain ⟨⟨i, p⟩, u⟩ := pr
    intro f hpw q hq
    rw [List.pairwise_cons] at hpw
    rcases List.mem_cons.mp hq with rfl | hq'
    · dsimp only [assignUrls]
      rw [assignUrls_skip rest _ i fun q' hq' => by
        have h2 := hpw.1 q' hq'; dsimp only at h2; omega]
      rw [if_pos rfl]
    · dsimp only [assignUrls]
      exact ih _ hpw.2 q hq'

theorem pairwise_zip {α β : Type} {R : α → α → Prop} :
    ∀ (l₁ : List α) (l₂ : List β), l₁.Pairwise R →
      (l₁.zip l₂).Pairwise fun a b => R a.1 b.1 := by
  intro l₁
  induction l₁ with
  | nil => intro l₂ _; simp
  | cons a as ih =>
    intro l₂ hpw
    cases l₂ with
    | nil => simp
    | cons b bs =>
      rw [List.pairwise_cons] at hpw
      rw [List.zip_cons_cons, List.pairwise_cons]
      constructor
      · intro q hq
        exact hpw.1 q.1 (List.of_mem_zip hq).1
      · exact ih bs hpw.2

/-- C8: every non-empty URL slot returned by the PostImage variant ends with
`?dl=1`; in a successful outcome each populated slot holds exactly the
extracted URL with `?dl=1` appended when absent. -/
theorem dl_suffix_on_all_urls :
    (∀ (session : SessionOracle) (ni : NodeInputs) (i : Nat),
        (executePostImage session ni).urls i ≠ "" →
        endswith ((executePostImage session ni).urls i) "?dl=1" = true) ∧
    (∀ (ni : NodeInputs) (urls : List String) (q : (Nat × String) × String),
        q ∈ (getValidImagePathsPI ni).zip urls →
        (executePostImage (.ok (.ok urls)) ni).success = "true" →
        (executePostImage (.ok (.ok urls)) ni).urls q.1.1 = appendDl q.2) := by
  constructor
  · intro session ni i
    rw [executePostImage_eq]
    by_cases he : (getValidImagePathsPI ni).isEmpty = true
    · rw [if_pos he]; intro h; exact absurd rfl h
    · rw [if_neg he]
      cases session with
      | error e => intro h; exact absurd rfl h
      | ok page =>
        cases page with
        | error e => intro h; exact absurd rfl h
        | ok urls =>
          dsimp only [uploadImagesPI]
          by_cases hc :
              (urls.isEmpty
                || !(urls.length == (getValidImagePathsPI ni).length)) = true
          · rw [if_pos hc]; intro h; exact absurd rfl h
          · rw [if_neg hc]
            dsimp only
            intro h
            rcases assignUrls_shape ((getValidImagePathsPI ni).zip urls)
                (fun _ => "") i with hs | ⟨u, hs⟩
            · exact absurd hs h
            · rw [hs]; exact endswith_appendDl u
  · intro ni urls q hq hsucc
    rw [executePostImage_eq] at hsucc ⊢
    by_cases he : (getValidImagePathsPI ni).isEmpty = true
    · rw [if_pos he] at hsucc
      exact absurd hsucc (by decide : ¬("false" : String) = "true")
    · rw [if_neg he] at hsucc ⊢
      dsimp only [uploadImagesPI] at hsucc ⊢
      by_cases hc :
          (urls.isEmpty
            || !(urls.length == (getValidImagePathsPI ni).length)) = true
      · rw [if_pos hc] at hsucc
        exact absurd hsucc (by decide : ¬("false" : String) = "true")
      · rw [if_neg hc]
        dsimp only
        have hpw : ((getValidImagePathsPI ni).zip urls).Pairwise
            fun a b => a.1.1 < b.1.1 :=
          pairwise_zip _ urls (getValidImagePaths_sorted ni)
        exact assignUrls_mem _ (fun _ => "") hpw q hq

theorem dl_suffix_witness :
    (executePostImage (.ok (.ok ["https://i.postimg.cc/ab/x.png"])) niOne).urls 1
        = "https://i.postimg.cc/ab/x.png?dl=1" ∧
    endswith
      ((executePostImage (.ok (.ok ["https://i.postimg.cc/ab/x.png"])) niOne).urls 1)
      "?dl=1" = true := by
  constructor
  · have h := dl_suffix_on_all_urls.2 niOne ["https://i.postimg.cc/ab/x.png"]
      ((1, "/tmp/a.png"), "https://i.postimg.cc/ab/x.png") (by decide) rfl
    rw [h]
    rfl
  · exact dl_suffix_on_all_urls.1 (.ok (.ok ["https://i.postimg.cc/ab/x.png"]))
      niOne 1 (by decide)

/- ## Parser toolkit: Python string primitives under symbolic inputs -/

theorem dropWhile_eq_self_of_head (p : Char → Bool) (l : List Char)
    (h : ∀ c, l.head? = some c → p c = false) : l.dropWhile p = l := by
  cases l with
  | nil => rfl
  | cons c cs =>
    rw [List.dropWhile_cons, h c rfl]
    simp

theorem lstripC_eq_self (p : Char → Bool) (l : List Char)
    (h : ∀ c, l.head? = some c → p c = false) : lstripC p l = l :=
  dropWhile_eq_self_of_head p l h

theorem rstripC_eq_self (p : Char → Bool) (l : List Char)
    (h : ∀ c, l.getLast? = some c → p c = false) : rstripC p l = l := by
  unfold rstripC
  rw [dropWhile_eq_self_of_head p l.reverse
    (fun c hc => h c (by rwa [List.head?_reverse] at hc))]
  exact List.reverse_reverse l

theorem rstripC_concat_pos (p : Char → Bool) (c : Char) (l : List Char)
    (h : p c = true) : rstripC p (l ++ [c]) = rstripC p l := by
  unfold rstripC
  rw [List.reverse_append]
  simp only [List.reverse_cons, List.reverse_nil, List.nil_append,
    List.singleton_append, List.dropWhile_cons, h]
  simp

theorem pyStrip_eq_self (p : Char → Bool) (l : List Char)
    (h1 : ∀ c, l.head? = some c → p c = false)
    (h2 : ∀ c, l.getLast? = some c → p c = false) : pyStrip p l = l := by
  unfold pyStrip
  rw [lstripC_eq_self p l h1, rstripC_eq_self p l h2]

theorem splitSlash_no_slash (l : List Char) (h : ∀ c ∈ l, c ≠ '/') :
    splitSlash l = [l] := by
  induction l with
  | nil => rfl
  | cons c cs ih =>
    unfold splitSlash
    rw [if_neg (by simp [h c (List.mem_cons_self c cs)])]
    rw [ih fun c' hc' => h c' (List.mem_cons_of_mem _ hc')]

theorem splitSlash_append (a b : List Char) (h : ∀ c ∈ a, c ≠ '/') :
    splitSlash (a ++ '/' :: b) = a :: splitSlash b := by
  induction a with
  | nil =>
    show splitSlash ('/' :: b) = [] :: splitSlash b
    simp only [splitSlash]
    rw [if_pos (by simp)]
  | cons c cs ih =>
    show splitSlash (c :: (cs ++ '/' :: b)) = (c :: cs) :: splitSlash b
    simp only [splitSlash]
    rw [if_neg (by simp [h c (List.mem_cons_self c cs)])]
    rw [ih fun c' hc' => h c' (List.mem_cons_of_mem _ hc')]

theorem dropPre_append (a t : List Char) : dropPre a (a ++ t) = some t := by
  induction a with
  | nil => rfl
  | cons c cs ih =>
    show dropPre (c :: cs) (c :: (cs ++ t)) = some t
    unfold dropPre
    rw [if_pos (by simp)]
    exact ih

theorem containsSeq_append_self (pat y : List Char) :
    ∀ x : List Char, containsSeq pat (x ++ pat ++ y) = true := by
  intro x
  induction x with
  | nil =>
    cases hp : pat ++ y with
    | nil =>
      unfold containsSeq
      simp only [List.nil_append, hp]
      have : pat = [] := by
        cases pat with
        | nil => rfl
        | cons c cs => simp at hp
      simp [this]
    | cons c cs =>
      unfold containsSeq
      simp only [List.nil_append, hp]
      rw [← hp, dropPre_append]
      simp
  | cons c cs ih =>
    show containsSeq pat (c :: (cs ++ pat ++ y)) = true
    unfold containsSeq
    rw [ih]
    simp

theorem contains_eq_false_of (l : List Char) (a : Char)
    (h : ∀ c ∈ l, c ≠ a) : l.contains a = false := by
  simp only [List.contains, List.elem_eq_mem, decide_eq_false_iff_not]
  intro hm
  exact h a hm rfl

theorem contains_eq_true_of (l : List Char) (a : Char) (h : a ∈ l) :
    l.contains a = true := by
  simp only [List.contains, List.elem_eq_mem, decide_eq_true_eq]
  exact h


theorem dropPre_cons_eq (x : Char) (ps cs : List Char) :
    dropPre (x :: ps) (x :: cs) = dropPre ps cs := by
  simp only [dropPre]
  rw [if_pos (by simp)]

theorem dropPre_cons_ne (x y : Char) (ps cs : List Char) (h : y ≠ x) :
    dropPre (x :: ps) (y :: cs) = none := by
  simp only [dropPre]
  rw [if_neg (by simp [h])]

theorem pyStrip_eq_self' (p : Char → Bool) (l : List Char)
    (hh : ∃ c, l.head? = some c ∧ p c = false)
    (hl : ∃ c, l.getLast? = some c ∧ p c = false) : pyStrip p l = l := by
  obtain ⟨c, hc, hpc⟩ := hh
  obtain ⟨d, hd, hpd⟩ := hl
  refine pyStrip_eq_self p l ?_ ?_
  · intro c' h'
    rw [hc] at h'
    injection h' with h''
    rwa [← h'']
  · intro d' h'
    rw [hd] at h'
    injection h' with h''
    rwa [← h'']

theorem head?_append_left (o t : List Char) (ho : o ≠ []) :
    (o ++ t).head? = o.head? := by
  cases o with
  | nil => exact absurd rfl ho
  | cons a as => rfl

theorem head?_good (p : Char → Bool) (o t : List Char) (ho : o ≠ [])
    (hmem : ∀ c ∈ o, p c = false) :
    ∃ c, (o ++ t).head? = some c ∧ p c = false := by
  cases o with
  | nil => exact absurd rfl ho
  | cons a as => exact ⟨a, rfl, hmem a (List.mem_cons_self _ _)⟩

theorem getLast?_good (p : Char → Bool) (x r : List Char) (hr : r ≠ [])
    (hmem : ∀ c ∈ r, p c = false) :
    ∃ c, (x ++ r).getLast? = some c ∧ p c = false :=
  ⟨r.getLast hr, by
    rw [List.getLast?_append_of_ne_nil x hr]
    exact List.getLast?_eq_getLast_of_ne_nil hr,
    hmem _ (List.getLast_mem hr)⟩

theorem ne_nil_of_head? {l : List Char} {c : Char} (h : l.head? = some c) :
    l ≠ [] := by
  cases l with
  | nil => simp at h
  | cons a as => simp

theorem strips_eq_self (l : List Char)
    (hh : ∃ c, l.head? = some c ∧ isWs c = false ∧ isSlash c = false)
    (hl : ∃ c, l.getLast? = some c ∧ isWs c = false ∧ isSlash c = false) :
    pyStrip isSlash (pyStrip isWs l) = l := by
  obtain ⟨c, hc, hcw, hcs⟩ := hh
  obtain ⟨d, hd, hdw, hds⟩ := hl
  rw [pyStrip_eq_self' isWs l ⟨c, hc, hcw⟩ ⟨d, hd, hdw⟩,
    pyStrip_eq_self' isSlash l ⟨c, hc, hcs⟩ ⟨d, hd, hds⟩]

theorem strips_concat_slash (l : List Char)
    (hh : ∃ c, l.head? = some c ∧ isWs c = false ∧ isSlash c = false)
    (hl : ∃ c, l.getLast? = some c ∧ isWs c = false ∧ isSlash c = false) :
    pyStrip isSlash (pyStrip isWs (l ++ ['/'])) = l := by
  obtain ⟨c, hc, hcw, hcs⟩ := hh
  obtain ⟨d, hd, hdw, hds⟩ := hl
  have hln : l ≠ [] := ne_nil_of_head? hc
  have hws : pyStrip isWs (l ++ ['/']) = l ++ ['/'] := by
    refine pyStrip_eq_self' isWs (l ++ ['/'])
      ⟨c, ?_, hcw⟩ ⟨'/', ?_, by decide⟩
    · rw [head?_append_left l ['/'] hln, hc]
    · rw [List.getLast?_concat]
  rw [hws]
  unfold pyStrip
  rw [lstripC_eq_self isSlash (l ++ ['/'])
    (by
      intro c' h'
      rw [head?_append_left l ['/'] hln, hc] at h'
      injection h' with h''
      rwa [← h''])]
  rw [rstripC_concat_pos isSlash '/' l (by decide)]
  exact rstripC_eq_self isSlash l
    (by
      intro d' h'
      rw [hd] at h'
      injection h' with h''
      rwa [← h''])

theorem case1_none_of_colon (url : List Char) (h : url.contains ':' = true) :
    case1 url = none := by
  unfold case1
  rw [h]
  simp

theorem case1_none_of_gitee (url : List Char)
    (h : containsSeq giteeTok url = true) : case1 url = none := by
  unfold case1
  rw [h]
  simp

theorem stripDotGit_concat (r : List Char) (hr : r ≠ []) :
    stripDotGit (r ++ gitTok) = r := by
  have hlen : (r ++ gitTok).length = r.length + 4 := by simp [gitTok]
  unfold stripDotGit
  rw [if_pos ?hc]
  case hc =>
    constructor
    · rw [hlen]
      have := List.length_pos_of_ne_nil hr
      omega
    · rw [hlen]
      have h4 : r.length + 4 - 4 = r.length := by omega
      rw [h4]
      exact List.drop_left r gitTok
  · rw [hlen]
    have h4 : r.length + 4 - 4 = r.length := by omega
    rw [h4]
    exact List.take_left r gitTok

theorem stripDotGit_keep (r : List Char)
    (h : ¬(4 < r.length ∧ r.drop (r.length - 4) = gitTok)) :
    stripDotGit r = r := by
  unfold stripDotGit
  rw [if_neg h]

theorem matchTwoSegs_eval (a r : List Char) (ha : a ≠ []) (hr : r ≠ [])
    (haS : ∀ c ∈ a, c ≠ '/') (hrS : ∀ c ∈ r, c ≠ '/') :
    matchTwoSegs (a ++ '/' :: r) = some (a, stripDotGit r) := by
  unfold matchTwoSegs
  rw [splitSlash_append a r haS, splitSlash_no_slash r hrS]
  dsimp only
  rw [if_pos ⟨ha, hr⟩]

theorem sshCase_eval (t : List Char) :
    sshCase (sshLead ++ t) = matchTwoSegs t := by
  unfold sshCase
  rw [dropPre_append]

theorem goodChar_ws {c : Char} (h : goodChar c) : isWs c = false := h.1

theorem goodChar_slash {c : Char} (h : goodChar c) : isSlash c = false := by
  unfold isSlash
  simp [h.2.1]

theorem goodChar_ne_slash {c : Char} (h : goodChar c) : c ≠ '/' := h.2.1

theorem head?_mem_append (o t : List Char) (ho : o ≠ []) :
    ∃ c, (o ++ t).head? = some c ∧ c ∈ o := by
  cases o with
  | nil => exact absurd rfl ho
  | cons a as => exact ⟨a, rfl, List.mem_cons_self _ _⟩

theorem getLast?_mem_append (x r : List Char) (hr : r ≠ []) :
    ∃ c, (x ++ r).getLast? = some c ∧ c ∈ r :=
  ⟨r.getLast hr, by
    rw [List.getLast?_append_of_ne_nil x hr]
    exact List.getLast?_eq_getLast_of_ne_nil hr,
    List.getLast_mem hr⟩

theorem dropScheme_https (t : List Char) :
    dropScheme ("https://".data ++ t) = t := by
  unfold dropScheme
  rw [dropPre_append]

theorem dropScheme_http (t : List Char) :
    dropScheme ("http://".data ++ t) = t := by
  have h1 : dropPre "https://".data ("http://".data ++ t) = none := by
    show dropPre ('h' :: 't' :: 't' :: 'p' :: 's' :: ':' :: '/' :: '/' :: [])
      ('h' :: 't' :: 't' :: 'p' :: ':' :: '/' :: '/' :: t) = none
    rw [dropPre_cons_eq, dropPre_cons_eq, dropPre_cons_eq, dropPre_cons_eq,
      dropPre_cons_ne _ _ _ _ (by decide)]
  unfold dropScheme
  rw [h1]
  dsimp only
  rw [dropPre_append]

theorem dropScheme_git (t : List Char) :
    dropScheme ("git://".data ++ t) = t := by
  have h1 : dropPre "https://".data ("git://".data ++ t) = none := by
    show dropPre ('h' :: 't' :: 't' :: 'p' :: 's' :: ':' :: '/' :: '/' :: [])
      ('g' :: 'i' :: 't' :: ':' :: '/' :: '/' :: t) = none
    exact dropPre_cons_ne _ _ _ _ (by decide)
  have h2 : dropPre "http://".data ("git://".data ++ t) = none := by
    show dropPre ('h' :: 't' :: 't' :: 'p' :: ':' :: '/' :: '/' :: [])
      ('g' :: 'i' :: 't' :: ':' :: '/' :: '/' :: t) = none
    exact dropPre_cons_ne _ _ _ _ (by decide)
  unfold dropScheme
  rw [h1]
  dsimp only
  rw [h2]
  dsimp only
  rw [dropPre_append]

theorem dropScheme_gitee (t : List Char) :
    dropScheme (giteeLead ++ t) = giteeLead ++ t := by
  have h1 : dropPre "https://".data (giteeLead ++ t) = none := by
    show dropPre ('h' :: 't' :: 't' :: 'p' :: 's' :: ':' :: '/' :: '/' :: [])
      ('g' :: 'i' :: 't' :: 'e' :: 'e' :: '.' :: 'c' :: 'o' :: 'm' :: '/' :: t) = none
    exact dropPre_cons_ne _ _ _ _ (by decide)
  have h2 : dropPre "http://".data (giteeLead ++ t) = none := by
    show dropPre ('h' :: 't' :: 't' :: 'p' :: ':' :: '/' :: '/' :: [])
      ('g' :: 'i' :: 't' :: 'e' :: 'e' :: '.' :: 'c' :: 'o' :: 'm' :: '/' :: t) = none
    exact dropPre_cons_ne _ _ _ _ (by decide)
  have h3 : dropPre "git://".data (giteeLead ++ t) = none := by
    show dropPre ('g' :: 'i' :: 't' :: ':' :: '/' :: '/' :: [])
      ('g' :: 'i' :: 't' :: 'e' :: 'e' :: '.' :: 'c' :: 'o' :: 'm' :: '/' :: t) = none
    rw [dropPre_cons_eq, dropPre_cons_eq, dropPre_cons_eq,
      dropPre_cons_ne _ _ _ _ (by decide)]
  unfold dropScheme
  rw [h1]
  dsimp only
  rw [h2]
  dsimp only
  rw [h3]

theorem sshCase_none_https (t : List Char) :
    sshCase ("https://".data ++ t) = none := by
  unfold sshCase
  rw [show dropPre sshLead ("https://".data ++ t) = none from by
    show dropPre ('g' :: 'i' :: 't' :: '@' :: 'g' :: 'i' :: 't' :: 'e' :: 'e' :: '.' :: 'c' :: 'o' :: 'm' :: ':' :: [])
      ('h' :: 't' :: 't' :: 'p' :: 's' :: ':' :: '/' :: '/' :: t) = none
    exact dropPre_cons_ne _ _ _ _ (by decide)]

theorem sshCase_none_http (t : List Char) :
    sshCase ("http://".data ++ t) = none := by
  unfold sshCase
  rw [show dropPre sshLead ("http://".data ++ t) = none from by
    show dropPre ('g' :: 'i' :: 't' :: '@' :: 'g' :: 'i' :: 't' :: 'e' :: 'e' :: '.' :: 'c' :: 'o' :: 'm' :: ':' :: [])
      ('h' :: 't' :: 't' :: 'p' :: ':' :: '/' :: '/' :: t) = none
    exact dropPre_cons_ne _ _ _ _ (by decide)]

theorem sshCase_none_git (t : List Char) :
    sshCase ("git://".data ++ t) = none := by
  unfold sshCase
  rw [show dropPre sshLead ("git://".data ++ t) = none from by
    show dropPre ('g' :: 'i' :: 't' :: '@' :: 'g' :: 'i' :: 't' :: 'e' :: 'e' :: '.' :: 'c' :: 'o' :: 'm' :: ':' :: [])
      ('g' :: 'i' :: 't' :: ':' :: '/' :: '/' :: t) = none
    rw [dropPre_cons_eq, dropPre_cons_eq, dropPre_cons_eq,
      dropPre_cons_ne _ _ _ _ (by decide)]]

theorem sshCase_none_gitee (t : List Char) :
    sshCase (giteeLead ++ t) = none := by
  unfold sshCase
  rw [show dropPre sshLead (giteeLead ++ t) = none from by
    show dropPre ('g' :: 'i' :: 't' :: '@' :: 'g' :: 'i' :: 't' :: 'e' :: 'e' :: '.' :: 'c' :: 'o' :: 'm' :: ':' :: [])
      ('g' :: 'i' :: 't' :: 'e' :: 'e' :: '.' :: 'c' :: 'o' :: 'm' :: '/' :: t) = none
    rw [dropPre_cons_eq, dropPre_cons_eq, dropPre_cons_eq,
      dropPre_cons_ne _ _ _ _ (by decide)]]

theorem containsSeq_gitee (sch t : List Char) :
    containsSeq giteeTok (sch ++ (giteeLead ++ t)) = true := by
  have h : sch ++ (giteeLead ++ t) = sch ++ giteeTok ++ ('/' :: t) := by
    rw [List.append_assoc]
    congr 1
  rw [h]
  exact containsSeq_append_self giteeTok ('/' :: t) sch

theorem urlCase_eval_gitee (t : List Char) :
    urlCase (giteeLead ++ t) = matchTwoSegs t := by
  unfold urlCase
  rw [dropScheme_gitee, dropPre_append]

theorem parseRepoChars_via_case1 (raw str₀ o r : List Char)
    (hstrip : pyStrip isSlash (pyStrip isWs raw) = str₀)
    (hc1 : case1 str₀ = some (o, r)) :
    parseRepoChars raw = some (o, r) := by
  unfold parseRepoChars
  rw [hstrip]
  dsimp only
  rw [hc1]

theorem parseRepoChars_via_ssh (raw str₀ o r : List Char)
    (hstrip : pyStrip isSlash (pyStrip isWs raw) = str₀)
    (hc1 : case1 str₀ = none)
    (hssh : sshCase str₀ = some (o, r)) :
    parseRepoChars raw = some (o, r) := by
  unfold parseRepoChars
  rw [hstrip]
  dsimp only
  rw [hc1]
  dsimp only
  rw [hssh]

theorem parseRepoChars_via_url (raw str₀ o r : List Char)
    (hstrip : pyStrip isSlash (pyStrip isWs raw) = str₀)
    (hc1 : case1 str₀ = none)
    (hssh : sshCase str₀ = none)
    (hurl : urlCase str₀ = some (o, r)) :
    parseRepoChars raw = some (o, r) := by
  unfold parseRepoChars
  rw [hstrip]
  dsimp only
  rw [hc1]
  dsimp only
  rw [hssh]
  dsimp only
  rw [hurl]

theorem case1_eval (o r : List Char)
    (hoC : ∀ c ∈ o, goodChar c) (hrC : ∀ c ∈ r, goodChar c)
    (hgit : containsSeq giteeTok (o ++ '/' :: r) = false) :
    case1 (o ++ '/' :: r) = some (o, r) := by
  have hsl : (o ++ '/' :: r).contains '/' = true :=
    contains_eq_true_of _ _ (List.mem_append_right o (List.mem_cons_self _ _))
  have hco : (o ++ '/' :: r).contains ':' = false := by
    refine contains_eq_false_of _ _ ?_
    intro c hc
    rcases List.mem_append.mp hc with h | h
    · exact (hoC c h).2.2.1
    · rcases List.mem_cons.mp h with rfl | h'
      · decide
      · exact (hrC c h').2.2.1
  have hat : (o ++ '/' :: r).contains '@' = false := by
    refine contains_eq_false_of _ _ ?_
    intro c hc
    rcases List.mem_append.mp hc with h | h
    · exact (hoC c h).2.2.2
    · rcases List.mem_cons.mp h with rfl | h'
      · decide
      · exact (hrC c h').2.2.2
  unfold case1
  rw [hsl, hco, hat, hgit]
  rw [if_pos (by decide)]
  rw [splitSlash_append o r fun c hc => goodChar_ne_slash (hoC c hc),
    splitSlash_no_slash r fun c hc => goodChar_ne_slash (hrC c hc)]

theorem parse_bare_core (o r s : List Char) (hs : s = [] ∨ s = ['/'])
    (ho : o ≠ []) (hr : r ≠ [])
    (hoC : ∀ c ∈ o, goodChar c) (hrC : ∀ c ∈ r, goodChar c)
    (hgit : containsSeq giteeTok (o ++ '/' :: r) = false) :
    parseRepoChars (o ++ '/' :: (r ++ s)) = some (o, r) := by
  have hc1 : case1 (o ++ '/' :: r) = some (o, r) :=
    case1_eval o r hoC hrC hgit
  have hhead : ∃ c, (o ++ '/' :: r).head? = some c ∧
      isWs c = false ∧ isSlash c = false := by
    obtain ⟨c, hc, hm⟩ := head?_mem_append o ('/' :: r) ho
    exact ⟨c, hc, goodChar_ws (hoC c hm), goodChar_slash (hoC c hm)⟩
  have hlast : ∃ c, (o ++ '/' :: r).getLast? = some c ∧
      isWs c = false ∧ isSlash c = false := by
    have hassoc : o ++ '/' :: r = (o ++ ['/']) ++ r := by simp
    obtain ⟨c, hc, hm⟩ := getLast?_mem_append (o ++ ['/']) r hr
    refine ⟨c, ?_, goodChar_ws (hrC c hm), goodChar_slash (hrC c hm)⟩
    rw [hassoc]
    exact hc
  rcases hs with rfl | rfl
  · rw [show o ++ '/' :: (r ++ []) = o ++ '/' :: r from by simp]
    exact parseRepoChars_via_case1 _ _ o r
      (strips_eq_self _ hhead hlast) hc1
  · rw [show o ++ '/' :: (r ++ ['/']) = (o ++ '/' :: r) ++ ['/'] from by simp]
    exact parseRepoChars_via_case1 _ _ o r
      (strips_concat_slash _ hhead hlast) hc1

theorem parse_ssh_core (o R r s : List Char) (hs : s = [] ∨ s = ['/'])
    (ho : o ≠ []) (hR : R ≠ [])
    (hoC : ∀ c ∈ o, goodChar c)
    (hRS : ∀ c ∈ R, c ≠ '/')
    (hRlast : ∃ c, R.getLast? = some c ∧ isWs c = false ∧ isSlash c = false)
    (hsd : stripDotGit R = r) :
    parseRepoChars (sshLead ++ (o ++ '/' :: (R ++ s))) = some (o, r) := by
  have hhead : ∃ c, (sshLead ++ (o ++ '/' :: R)).head? = some c ∧
      isWs c = false ∧ isSlash c = false :=
    ⟨'g', rfl, by decide, by decide⟩
  have hlast : ∃ c, (sshLead ++ (o ++ '/' :: R)).getLast? = some c ∧
      isWs c = false ∧ isSlash c = false := by
    obtain ⟨c, hc, hcw, hcs⟩ := hRlast
    refine ⟨c, ?_, hcw, hcs⟩
    have hassoc : sshLead ++ (o ++ '/' :: R)
        = (sshLead ++ (o ++ ['/'])) ++ R := by simp
    rw [hassoc, List.getLast?_append_of_ne_nil _ hR, hc]
  have hc1 : case1 (sshLead ++ (o ++ '/' :: R)) = none :=
    case1_none_of_colon _
      (contains_eq_true_of _ _ (List.mem_append_left _ (by decide)))
  have hssh : sshCase (sshLead ++ (o ++ '/' :: R)) = some (o, r) := by
    rw [sshCase_eval,
      matchTwoSegs_eval o R ho hR (fun c hc => goodChar_ne_slash (hoC c hc))
        hRS, hsd]
  rcases hs with rfl | rfl
  · rw [show sshLead ++ (o ++ '/' :: (R ++ []))
        = sshLead ++ (o ++ '/' :: R) from by simp]
    exact parseRepoChars_via_ssh _ _ o r
      (strips_eq_self _ hhead hlast) hc1 hssh
  · rw [show sshLead ++ (o ++ '/' :: (R ++ ['/']))
        = (sshLead ++ (o ++ '/' :: R)) ++ ['/'] from by simp]
    exact parseRepoChars_via_ssh _ _ o r
      (strips_concat_slash _ hhead hlast) hc1 hssh

theorem urlCase_eval_of_dropScheme (u t : List Char)
    (hds : dropScheme u = giteeLead ++ t) : urlCase u = matchTwoSegs t := by
  unfold urlCase
  rw [hds, dropPre_append]

theorem parse_url_generic (sch o R r s : List Char)
    (hs : s = [] ∨ s = ['/'])
    (ho : o ≠ []) (hR : R ≠ [])
    (hoC : ∀ c ∈ o, goodChar c)
    (hRS : ∀ c ∈ R, c ≠ '/')
    (hRlast : ∃ c, R.getLast? = some c ∧ isWs c = false ∧ isSlash c = false)
    (hsd : stripDotGit R = r)
    (hheadc : ∃ c, (sch ++ (giteeLead ++ (o ++ '/' :: R))).head? = some c ∧
      isWs c = false ∧ isSlash c = false)
    (hsshn : sshCase (sch ++ (giteeLead ++ (o ++ '/' :: R))) = none)
    (hds : dropScheme (sch ++ (giteeLead ++ (o ++ '/' :: R)))
      = giteeLead ++ (o ++ '/' :: R)) :
    parseRepoChars (sch ++ (giteeLead ++ (o ++ '/' :: (R ++ s))))
      = some (o, r) := by
  have hlast : ∃ c, (sch ++ (giteeLead ++ (o ++ '/' :: R))).getLast? = some c ∧
      isWs c = false ∧ isSlash c = false := by
    obtain ⟨c, hc, hcw, hcs⟩ := hRlast
    refine ⟨c, ?_, hcw, hcs⟩
    have hassoc : sch ++ (giteeLead ++ (o ++ '/' :: R))
        = (sch ++ (giteeLead ++ (o ++ ['/']))) ++ R := by simp
    rw [hassoc, List.getLast?_append_of_ne_nil _ hR, hc]
  have hc1 : case1 (sch ++ (giteeLead ++ (o ++ '/' :: R))) = none :=
    case1_none_of_gitee _ (containsSeq_gitee sch _)
  have hurl : urlCase (sch ++ (giteeLead ++ (o ++ '/' :: R))) = some (o, r) := by
    rw [urlCase_eval_of_dropScheme _ _ hds,
      matchTwoSegs_eval o R ho hR (fun c hc => goodChar_ne_slash (hoC c hc))
        hRS, hsd]
  rcases hs with rfl | rfl
  · rw [show sch ++ (giteeLead ++ (o ++ '/' :: (R ++ [])))
        = sch ++ (giteeLead ++ (o ++ '/' :: R)) from by simp]
    exact parseRepoChars_via_url _ _ o r
      (strips_eq_self _ hheadc hlast) hc1 hsshn hurl
  · rw [show sch ++ (giteeLead ++ (o ++ '/' :: (R ++ ['/'])))
        = (sch ++ (giteeLead ++ (o ++ '/' :: R))) ++ ['/'] from by simp]
    exact parseRepoChars_via_url _ _ o r
      (strips_concat_slash _ hheadc hlast) hc1 hsshn hurl

theorem parse_url_core (sch o R r s : List Char)
    (hsch : sch = [] ∨ sch = "http://".data ∨ sch = "https://".data
      ∨ sch = "git://".data)
    (hs : s = [] ∨ s = ['/'])
    (ho : o ≠ []) (hR : R ≠ [])
    (hoC : ∀ c ∈ o, goodChar c)
    (hRS : ∀ c ∈ R, c ≠ '/')
    (hRlast : ∃ c, R.getLast? = some c ∧ isWs c = false ∧ isSlash c = false)
    (hsd : stripDotGit R = r) :
    parseRepoChars (sch ++ (giteeLead ++ (o ++ '/' :: (R ++ s))))
      = some (o, r) := by
  rcases hsch with rfl | rfl | rfl | rfl
  · exact parse_url_generic [] o R r s hs ho hR hoC hRS hRlast hsd
      ⟨'g', rfl, by decide, by decide⟩ (sshCase_none_gitee _)
      (dropScheme_gitee _)
  · exact parse_url_generic _ o R r s hs ho hR hoC hRS hRlast hsd
      ⟨'h', rfl, by decide, by decide⟩ (sshCase_none_http _)
      (dropScheme_http _)
  · exact parse_url_generic _ o R r s hs ho hR hoC hRS hRlast hsd
      ⟨'h', rfl, by decide, by decide⟩ (sshCase_none_https _)
      (dropScheme_https _)
  · exact parse_url_generic _ o R r s hs ho hR hoC hRS hRlast hsd
      ⟨'g', rfl, by decide, by decide⟩ (sshCase_none_git _)
      (dropScheme_git _)

theorem getLast?_mem (r : List Char) (hr : r ≠ []) :
    ∃ c, r.getLast? = some c ∧ c ∈ r :=
  ⟨r.getLast hr, List.getLast?_eq_getLast_of_ne_nil hr, List.getLast_mem hr⟩

theorem gitRfacts (r g : List Char) (hr : r ≠ [])
    (hrC : ∀ c ∈ r, goodChar c)
    (hng : ¬(4 < r.length ∧ r.drop (r.length - 4) = gitTok))
    (hg : g = [] ∨ g = gitTok) :
    (r ++ g ≠ []) ∧ (∀ c ∈ r ++ g, c ≠ '/') ∧
    (∃ c, (r ++ g).getLast? = some c ∧ isWs c = false ∧ isSlash c = false) ∧
    stripDotGit (r ++ g) = r := by
  rcases hg with rfl | rfl
  · refine ⟨by simp [hr], ?_, ?_, ?_⟩
    · intro c hc
      rw [List.append_nil] at hc
      exact goodChar_ne_slash (hrC c hc)
    · obtain ⟨c, hc, hm⟩ := getLast?_mem r hr
      exact ⟨c, by rw [List.append_nil]; exact hc,
        goodChar_ws (hrC c hm), goodChar_slash (hrC c hm)⟩
    · rw [List.append_nil]
      exact stripDotGit_keep r hng
  · have hgm : ∀ c ∈ gitTok, isWs c = false ∧ isSlash c = false ∧ c ≠ '/' := by
      intro c hc
      unfold gitTok at hc
      rw [List.mem_cons, List.mem_cons, List.mem_cons,
        List.mem_singleton] at hc
      rcases hc with rfl | rfl | rfl | rfl <;> exact ⟨by decide, by decide, by decide⟩
    refine ⟨?_, ?_, ?_, stripDotGit_concat r hr⟩
    · intro hco
      exact hr (List.append_eq_nil.mp hco).1
    · intro c hc
      rcases List.mem_append.mp hc with h | h
      · exact goodChar_ne_slash (hrC c h)
      · exact (hgm c h).2.2
    · obtain ⟨c, hc, hm⟩ := getLast?_mem_append r gitTok (by decide)
      exact ⟨c, hc, (hgm c hm).1, (hgm c hm).2.1⟩

theorem parseRepoUrl_of_chars (str : String) (o r chars : List Char)
    (hdata : str.data = chars)
    (h : parseRepoChars chars = some (o, r)) :
    parseRepoUrl str = .ok (String.mk o, String.mk r) := by
  unfold parseRepoUrl
  rw [hdata, h]

/-- C1 (amended): for owner and repo names made of ordinary characters
(no separators, dispatch tokens or whitespace) where repo does not itself
end in `.git`, every accepted locator shape — bare `owner/repo`, SSH
`git@gitee.com:owner/repo[.git]`, and `[scheme://]gitee.com/owner/repo[.git]`
for the schemes `http`, `https`, `git` or none, each with or without a
trailing slash — parses to the identical pair `(owner, repo)`.  The `.git`
variant of the bare shape is excluded: the parser does not strip the suffix
there (see the counterexample). -/
theorem parse_all_accepted_shapes (owner repo : String)
    (ho : owner.data ≠ []) (hr : repo.data ≠ [])
    (hoC : ∀ c ∈ owner.data, goodChar c)
    (hrC : ∀ c ∈ repo.data, goodChar c)
    (hgit : containsSeq giteeTok (owner.data ++ '/' :: repo.data) = false)
    (hng : ¬(4 < repo.data.length ∧
      repo.data.drop (repo.data.length - 4) = gitTok)) :
    (∀ s ∈ (["", "/"] : List String),
      parseRepoUrl (owner ++ "/" ++ repo ++ s) = .ok (owner, repo)) ∧
    (∀ g ∈ (["", ".git"] : List String), ∀ s ∈ (["", "/"] : List String),
      parseRepoUrl ("git@gitee.com:" ++ owner ++ "/" ++ repo ++ g ++ s)
        = .ok (owner, repo)) ∧
    (∀ sch ∈ (["", "http://", "https://", "git://"] : List String),
      ∀ g ∈ (["", ".git"] : List String), ∀ s ∈ (["", "/"] : List String),
      parseRepoUrl (sch ++ "gitee.com/" ++ owner ++ "/" ++ repo ++ g ++ s)
        = .ok (owner, repo)) := by
  have hslash : ("/" : String).data = ['/'] := rfl
  have hgitd : (".git" : String).data = gitTok := rfl
  have hsshl : ("git@gitee.com:" : String).data = sshLead := rfl
  have hgiteel : ("gitee.com/" : String).data = giteeLead := rfl
  refine ⟨?_, ?_, ?_⟩
  · intro s hs
    rw [List.mem_cons, List.mem_singleton] at hs
    have hsC : s.data = [] ∨ s.data = ['/'] := by
      rcases hs with rfl | rfl
      · exact Or.inl rfl
      · exact Or.inr rfl
    exact parseRepoUrl_of_chars _ _ _ _
      (by simp [String.data_append, hslash, List.append_assoc])
      (parse_bare_core owner.data repo.data s.data hsC ho hr hoC hrC hgit)
  · intro g hg s hs
    rw [List.mem_cons, List.mem_singleton] at hg hs
    have hsC : s.data = [] ∨ s.data = ['/'] := by
      rcases hs with rfl | rfl
      · exact Or.inl rfl
      · exact Or.inr rfl
    have hgC : g.data = [] ∨ g.data = gitTok := by
      rcases hg with rfl | rfl
      · exact Or.inl rfl
      · exact Or.inr rfl
    obtain ⟨hRne, hRS, hRlast, hsd⟩ :=
      gitRfacts repo.data g.data hr hrC hng hgC
    refine parseRepoUrl_of_chars _ _ _ _ ?_
      (parse_ssh_core owner.data (repo.data ++ g.data) repo.data s.data hsC
        ho hRne hoC hRS hRlast hsd)
    simp [String.data_append, hslash, hgitd, hsshl, sshLead, List.append_assoc]
  · intro sch hsch g hg s hs
    rw [List.mem_cons, List.mem_cons, List.mem_cons,
      List.mem_singleton] at hsch
    rw [List.mem_cons, List.mem_singleton] at hg hs
    have hsC : s.data = [] ∨ s.data = ['/'] := by
      rcases hs with rfl | rfl
      · exact Or.inl rfl
      · exact Or.inr rfl
    have hgC : g.data = [] ∨ g.data = gitTok := by
      rcases hg with rfl | rfl
      · exact Or.inl rfl
      · exact Or.inr rfl
    have hschC : sch.data = [] ∨ sch.data = "http://".data
        ∨ sch.data = "https://".data ∨ sch.data = "git://".data := by
      rcases hsch with rfl | rfl | rfl | rfl
      · exact Or.inl rfl
      · exact Or.inr (Or.inl rfl)
      · exact Or.inr (Or.inr (Or.inl rfl))
      · exact Or.inr (Or.inr (Or.inr rfl))
    obtain ⟨hRne, hRS, hRlast, hsd⟩ :=
      gitRfacts repo.data g.data hr hrC hng hgC
    refine parseRepoUrl_of_chars _ _ _ _ ?_
      (parse_url_core sch.data owner.data (repo.data ++ g.data) repo.data
        s.data hschC hsC ho hRne hoC hRS hRlast hsd)
    simp [String.data_append, hslash, hgitd, hgiteel, giteeLead, List.append_assoc]


theorem parse_all_accepted_shapes_witness :
    parseRepoUrl "gitee.com/alice/pics" = .ok ("alice", "pics") ∧
    parseRepoUrl "https://gitee.com/alice/pics.git" = .ok ("alice", "pics") ∧
    parseRepoUrl "git@gitee.com:alice/pics" = .ok ("alice", "pics") ∧
    parseRepoUrl "alice/pics" = .ok ("alice", "pics") := by
  have h := parse_all_accepted_shapes "alice" "pics" (by decide) (by decide)
    (by decide) (by decide) (by decide) (by decide)
  refine ⟨?_, ?_, ?_, ?_⟩
  · have h2 := h.2.2 "" (by decide) "" (by decide) "" (by decide)
    rw [show ("" ++ "gitee.com/" ++ "alice" ++ "/" ++ "pics" ++ "" ++ ""
      : String) = "gitee.com/alice/pics" from by decide] at h2
    exact h2
  · have h2 := h.2.2 "https://" (by decide) ".git" (by decide) "" (by decide)
    rw [show ("https://" ++ "gitee.com/" ++ "alice" ++ "/" ++ "pics"
        ++ ".git" ++ "" : String)
      = "https://gitee.com/alice/pics.git" from by decide] at h2
    exact h2
  · have h2 := h.2.1 "" (by decide) "" (by decide)
    rw [show ("git@gitee.com:" ++ "alice" ++ "/" ++ "pics" ++ "" ++ ""
      : String) = "git@gitee.com:alice/pics" from by decide] at h2
    exact h2
  · have h2 := h.1 "" (by decide)
    rw [show ("alice" ++ "/" ++ "pics" ++ "" : String)
      = "alice/pics" from by decide] at h2
    exact h2

/-- C1 counterexample: a bare locator carrying the `.git` suffix does not
yield the same pair as the URL shape for the same repository, because case 1
of the parser never strips `.git`. -/
theorem bare_dotgit_not_stripped :
    parseRepoUrl "alice/pics.git" = .ok ("alice", "pics.git") ∧
    parseRepoUrl "https://gitee.com/alice/pics.git" = .ok ("alice", "pics") ∧
    (("alice", "pics.git") : String × String) ≠ ("alice", "pics") :=
  ⟨rfl, rfl, by decide⟩

/- ## Claims C2 and C3 -/

theorem matchTwoSegs_some (t : List Char) (ab : List Char × List Char)
    (h : matchTwoSegs t = some ab) :
    ∃ a r, splitSlash t = [a, r] ∧ a ≠ [] ∧ r ≠ [] ∧ ab = (a, stripDotGit r) := by
  unfold matchTwoSegs at h
  rcases hs : splitSlash t with _ | ⟨a, _ | ⟨r, _ | ⟨x, xs⟩⟩⟩ <;> rw [hs] at h
  · exact absurd h (by simp)
  · exact absurd h (by simp)
  · dsimp only at h
    by_cases hc : a ≠ [] ∧ r ≠ []
    · rw [if_pos hc] at h
      injection h with h'
      exact ⟨a, r, rfl, hc.1, hc.2, h'.symm⟩
    · rw [if_neg hc] at h
      exact absurd h (by simp)
  · exact absurd h (by simp)

theorem twoSegsCheck_of (t a r : List Char) (hs : splitSlash t = [a, r])
    (ha : a ≠ []) (hr : r ≠ []) :
    (match splitSlash t with
      | [a, b] => !a.isEmpty && !b.isEmpty
      | _ => false) = true := by
  rw [hs]
  simp [List.isEmpty_iff, ha, hr]

theorem specSsh_of_sshCase (u : List Char) (ab : List Char × List Char)
    (h : sshCase u = some ab) : specSsh u = true := by
  unfold sshCase at h
  unfold specSsh
  cases hd : dropPre sshLead u with
  | none => rw [hd] at h; exact absurd h (by simp)
  | some t =>
    rw [hd] at h
    dsimp only at h ⊢
    obtain ⟨a, r, hs, ha, hr, _⟩ := matchTwoSegs_some t ab h
    exact twoSegsCheck_of t a r hs ha hr

theorem specUrl_of_urlCase (u : List Char) (ab : List Char × List Char)
    (h : urlCase u = some ab) : specUrl u = true := by
  unfold urlCase at h
  unfold specUrl
  cases hd : dropPre giteeLead (dropScheme u) with
  | none => rw [hd] at h; exact absurd h (by simp)
  | some t =>
    rw [hd] at h
    dsimp only at h ⊢
    obtain ⟨a, r, hs, ha, hr, _⟩ := matchTwoSegs_some t ab h
    exact twoSegsCheck_of t a r hs ha hr

theorem case1_none_of_token (u : List Char)
    (h : u.contains ':' = true ∨ u.contains '@' = true ∨
      containsSeq giteeTok u = true ∨ u.contains '/' = false) :
    case1 u = none := by
  unfold case1
  rcases h with h | h | h | h <;> rw [h] <;> simp

theorem parseRepoChars_none (raw : List Char)
    (hc1 : case1 (pyStrip isSlash (pyStrip isWs raw)) = none)
    (hssh : sshCase (pyStrip isSlash (pyStrip isWs raw)) = none)
    (hurl : urlCase (pyStrip isSlash (pyStrip isWs raw)) = none) :
    parseRepoChars raw = none := by
  unfold parseRepoChars
  dsimp only
  rw [hc1]
  dsimp only
  rw [hssh]
  dsimp only
  rw [hurl]

theorem parseRepoUrl_none (str : String)
    (h : parseRepoChars str.data = none) :
    parseRepoUrl str = .error invalidMsg := by
  unfold parseRepoUrl
  rw [h]

/-- C2 (amended): an input matching none of the three accepted shapes whose
trimmed form contains `:`, `@` or `gitee.com`, or contains no `/`, is
rejected with the `ValueError` whose message enumerates the three accepted
shapes; a token-free input containing `/` can instead yield a best-effort
pair of its first two segments (see the counterexample). -/
theorem unmatched_locator_rejected (s : String)
    (hacc : specAcceptedLocator s = false)
    (htok : (pyStrip isSlash (pyStrip isWs s.data)).contains ':' = true ∨
      (pyStrip isSlash (pyStrip isWs s.data)).contains '@' = true ∨
      containsSeq giteeTok (pyStrip isSlash (pyStrip isWs s.data)) = true ∨
      (pyStrip isSlash (pyStrip isWs s.data)).contains '/' = false) :
    parseRepoUrl s = .error invalidMsg := by
  have hacc' := hacc
  unfold specAcceptedLocator at hacc'
  rw [Bool.or_eq_false_iff, Bool.or_eq_false_iff] at hacc'
  obtain ⟨⟨hb, hsshF⟩, hurlF⟩ := hacc'
  refine parseRepoUrl_none s (parseRepoChars_none s.data
    (case1_none_of_token _ htok) ?_ ?_)
  · cases hcase : sshCase (pyStrip isSlash (pyStrip isWs s.data)) with
    | none => rfl
    | some ab =>
      exact absurd (specSsh_of_sshCase _ ab hcase) (by rw [hsshF]; decide)
  · cases hcase : urlCase (pyStrip isSlash (pyStrip isWs s.data)) with
    | none => rfl
    | some ab =>
      exact absurd (specUrl_of_urlCase _ ab hcase) (by rw [hurlF]; decide)

theorem splitSlash_ne_nil (l : List Char) : splitSlash l ≠ [] := by
  cases l with
  | nil => simp [splitSlash]
  | cons c cs =>
    simp only [splitSlash]
    by_cases h : (c == '/') = true
    · rw [if_pos h]; simp
    · rw [if_neg h]
      cases hs : splitSlash cs with
      | nil => simp
      | cons p ps => simp

theorem mem_splitSlash (l : List Char) :
    ∀ seg ∈ splitSlash l, ∀ c ∈ seg, c ≠ '/' := by
  induction l with
  | nil =>
    intro seg hseg c hc
    simp only [splitSlash, List.mem_singleton] at hseg
    subst hseg
    cases hc
  | cons d ds ih =>
    intro seg hseg c hc
    simp only [splitSlash] at hseg
    by_cases hd : (d == '/') = true
    · rw [if_pos hd] at hseg
      rcases List.mem_cons.mp hseg with rfl | h'
      · cases hc
      · exact ih seg h' c hc
    · rw [if_neg hd] at hseg
      have hdne : d ≠ '/' := by simpa using hd
      cases hs : splitSlash ds with
      | nil => exact absurd hs (splitSlash_ne_nil ds)
      | cons p ps =>
        rw [hs] at hseg
        dsimp only at hseg
        rcases List.mem_cons.mp hseg with rfl | h'
        · rcases List.mem_cons.mp hc with rfl | hcp
          · exact hdne
          · exact ih p (by rw [hs]; exact List.mem_cons_self p ps) c hcp
        · exact ih seg (by rw [hs]; exact List.mem_cons_of_mem _ h') c hc

theorem head?_dropWhile (p : Char → Bool) (l : List Char) :
    ∀ c, (l.dropWhile p).head? = some c → p c = false := by
  induction l with
  | nil => intro c h; simp at h
  | cons a as ih =>
    intro c h
    rw [List.dropWhile_cons] at h
    by_cases ha : p a = true
    · rw [if_pos ha] at h
      exact ih c h
    · rw [if_neg ha] at h
      injection h with h'
      rw [← h']
      simpa using ha

theorem rstripC_head? (p : Char → Bool) (x : List Char) (c : Char)
    (h : (rstripC p x).head? = some c) : x.head? = some c := by
  have hpre : rstripC p x <+: x := by
    unfold rstripC
    have h1 : x.reverse.dropWhile p <:+ x.reverse := List.dropWhile_suffix p
    have h2 := List.reverse_prefix.mpr h1
    rwa [List.reverse_reverse] at h2
  obtain ⟨t, ht⟩ := hpre
  rw [← ht, head?_append_left _ t (ne_nil_of_head? h), h]

theorem pyStrip_head (p : Char → Bool) (l : List Char) (c : Char)
    (h : (pyStrip p l).head? = some c) : p c = false := by
  unfold pyStrip at h
  exact head?_dropWhile p l c (rstripC_head? p (lstripC p l) c h)

theorem splitSlash_first_ne_nil (u x : List Char) (rest : List (List Char))
    (hs : splitSlash u = x :: rest) (hne : u ≠ [])
    (hhead : ∀ c, u.head? = some c → c ≠ '/') : x ≠ [] := by
  cases u with
  | nil => exact absurd rfl hne
  | cons d ds =>
    have hd : d ≠ '/' := hhead d rfl
    simp only [splitSlash] at hs
    rw [if_neg (by simpa using hd)] at hs
    cases hsp : splitSlash ds with
    | nil => exact absurd hsp (splitSlash_ne_nil ds)
    | cons p ps =>
      rw [hsp] at hs
      dsimp only at hs
      injection hs with h1 h2
      rw [← h1]
      simp

theorem stripDotGit_subset (r : List Char) (c : Char)
    (hc : c ∈ stripDotGit r) : c ∈ r := by
  unfold stripDotGit at hc
  by_cases hif : 4 < r.length ∧ r.drop (r.length - 4) = gitTok
  · rw [if_pos hif] at hc
    exact List.take_subset _ _ hc
  · rwa [if_neg hif] at hc

theorem matchTwoSegs_facts (t a b : List Char)
    (h : matchTwoSegs t = some (a, b)) :
    a ≠ [] ∧ (∀ c ∈ a, c ≠ '/') ∧ (∀ c ∈ b, c ≠ '/') := by
  obtain ⟨x, r, hs, hx, hr, hab⟩ := matchTwoSegs_some t (a, b) h
  rw [Prod.mk.injEq] at hab
  obtain ⟨rfl, rfl⟩ := hab
  refine ⟨hx, ?_, ?_⟩
  · intro c hc
    exact mem_splitSlash t a (by rw [hs]; simp) c hc
  · intro c hc
    exact mem_splitSlash t r (by rw [hs]; simp) c (stripDotGit_subset r c hc)

theorem sshCase_some_facts (u a b : List Char) (h : sshCase u = some (a, b)) :
    a ≠ [] ∧ (∀ c ∈ a, c ≠ '/') ∧ (∀ c ∈ b, c ≠ '/') := by
  unfold sshCase at h
  cases hd : dropPre sshLead u with
  | none => rw [hd] at h; exact absurd h (by simp)
  | some t =>
    rw [hd] at h
    dsimp only at h
    exact matchTwoSegs_facts t a b h

theorem urlCase_some_facts (u a b : List Char) (h : urlCase u = some (a, b)) :
    a ≠ [] ∧ (∀ c ∈ a, c ≠ '/') ∧ (∀ c ∈ b, c ≠ '/') := by
  unfold urlCase at h
  cases hd : dropPre giteeLead (dropScheme u) with
  | none => rw [hd] at h; exact absurd h (by simp)
  | some t =>
    rw [hd] at h
    dsimp only at h
    exact matchTwoSegs_facts t a b h

theorem case1_some_facts (u a b : List Char)
    (hhead : ∀ c, u.head? = some c → c ≠ '/')
    (h : case1 u = some (a, b)) :
    a ≠ [] ∧ (∀ c ∈ a, c ≠ '/') ∧ (∀ c ∈ b, c ≠ '/') := by
  unfold case1 at h
  by_cases hcond : (u.contains '/' && !u.contains ':' && !u.contains '@'
      && !containsSeq giteeTok u) = true
  · rw [if_pos hcond] at h
    have hne : u ≠ [] := by
      intro hu
      subst hu
      simp [List.contains] at hcond
    rcases hsp : splitSlash u with _ | ⟨x, _ | ⟨y, rest⟩⟩ <;> rw [hsp] at h
    · exact absurd h (by simp)
    · exact absurd h (by simp)
    · dsimp only at h
      injection h with h'
      rw [Prod.mk.injEq] at h'
      obtain ⟨rfl, rfl⟩ := h'
      refine ⟨splitSlash_first_ne_nil u x (y :: rest) hsp hne hhead, ?_, ?_⟩
      · intro c hc
        exact mem_splitSlash u x (by rw [hsp]; simp) c hc
      · intro c hc
        exact mem_splitSlash u y (by rw [hsp]; simp) c hc
  · rw [if_neg hcond] at h
    exact absurd h (by simp)

theorem parseRepoChars_some_facts (raw a b : List Char)
    (h : parseRepoChars raw = some (a, b)) :
    a ≠ [] ∧ (∀ c ∈ a, c ≠ '/') ∧ (∀ c ∈ b, c ≠ '/') := by
  have hhead : ∀ c, (pyStrip isSlash (pyStrip isWs raw)).head? = some c →
      c ≠ '/' := by
    intro c hc
    have := pyStrip_head isSlash (pyStrip isWs raw) c hc
    simpa [isSlash] using this
  unfold parseRepoChars at h
  dsimp only at h
  cases hc1 : case1 (pyStrip isSlash (pyStrip isWs raw)) with
  | some ab =>
    rw [hc1] at h
    dsimp only at h
    injection h with h'
    rw [h'] at hc1
    exact case1_some_facts _ a b hhead hc1
  | none =>
    rw [hc1] at h
    dsimp only at h
    cases hssh : sshCase (pyStrip isSlash (pyStrip isWs raw)) with
    | some ab =>
      rw [hssh] at h
      dsimp only at h
      injection h with h'
      rw [h'] at hssh
      exact sshCase_some_facts _ a b hssh
    | none =>
      rw [hssh] at h
      dsimp only at h
      exact urlCase_some_facts _ a b h

/-- C3 (amended): whenever the parser returns successfully, the owner is a
non-empty string and neither component contains a path separator; the repo
component can however be empty, via the bare case on an input whose second
`/`-field is empty (see the counterexample). -/
theorem parse_success_shape (s o r : String)
    (h : parseRepoUrl s = .ok (o, r)) :
    o ≠ "" ∧ o.data.contains '/' = false ∧ r.data.contains '/' = false := by
  unfold parseRepoUrl at h
  cases hpc : parseRepoChars s.data with
  | none => rw [hpc] at h; exact absurd h (by simp)
  | some ab =>
    obtain ⟨a, b⟩ := ab
    rw [hpc] at h
    dsimp only at h
    injection h with h'
    rw [Prod.mk.injEq] at h'
    obtain ⟨ho, hr⟩ := h'
    obtain ⟨ha, haS, hbS⟩ := parseRepoChars_some_facts s.data a b hpc
    refine ⟨?_, ?_, ?_⟩
    · rw [← ho]
      intro he
      exact ha (congrArg String.data he)
    · rw [← ho]
      exact contains_eq_false_of a '/' haS
    · rw [← hr]
      exact contains_eq_false_of b '/' hbS


theorem unmatched_locator_rejected_witness :
    specAcceptedLocator "not a url" = false ∧
    parseRepoUrl "not a url" = .error invalidMsg :=
  ⟨by decide, unmatched_locator_rejected "not a url" (by decide) (by decide)⟩

/-- C2 counterexample: `"a/b/c"` matches none of the three accepted shapes,
yet the parser returns the best-effort pair of its first two segments
instead of signalling the format error. -/
theorem best_effort_on_multisegment :
    specAcceptedLocator "a/b/c" = false ∧
    parseRepoUrl "a/b/c" = .ok ("a", "b") :=
  ⟨by decide, rfl⟩

theorem parse_success_shape_witness :
    parseRepoUrl "gitee.com/alice/pics" = .ok ("alice", "pics") ∧
    ("alice" : String) ≠ "" ∧
    ("alice" : String).data.contains '/' = false ∧
    ("pics" : String).data.contains '/' = false :=
  ⟨rfl, (parse_success_shape "gitee.com/alice/pics" "alice" "pics" rfl).1,
    (parse_success_shape "gitee.com/alice/pics" "alice" "pics" rfl).2.1,
    (parse_success_shape "gitee.com/alice/pics" "alice" "pics" rfl).2.2⟩

/-- C3 counterexample: the parser succeeds on `"a//b"` with an empty repo
component, contradicting the both-components-non-empty invariant. -/
theorem empty_repo_component_accepted :
    parseRepoUrl "a//b" = .ok ("a", "") := rfl

/- ## Claim C4 -/

theorem uploadLoopG_pre (oracle : GiteeOracle) (owner repo td : String) :
    ∀ (pre rest : List (Nat × String)) (acc : GiteeOutcome),
      (∀ q ∈ pre, ∃ u, oracle owner repo td q.1 q.2 = .ok u) →
      uploadLoopG oracle owner repo td (pre ++ rest) acc =
        uploadLoopG oracle owner repo td rest
          { acc with urls := applyOk oracle owner repo td pre acc.urls } := by
  intro pre
  induction pre with
  | nil => intro rest acc _; rfl
  | cons hd tl ih =>
    obtain ⟨i, p⟩ := hd
    intro rest acc hpre
    obtain ⟨u, hu⟩ := hpre (i, p) (List.mem_cons_self _ _)
    rw [List.cons_append,
      uploadLoopG_cons_ok oracle owner repo td i p u (tl ++ rest) acc hu,
      ih rest _ fun q hq => hpre q (List.mem_cons_of_mem _ hq)]
    dsimp only [applyOk]
    rw [uploadSingleImage_ok oracle owner repo td i p u hu]

theorem applyOk_skip (oracle : GiteeOracle) (owner repo td : String) :
    ∀ (pairs : List (Nat × String)) (f : Nat → String) (j : Nat),
      (∀ q ∈ pairs, q.1 ≠ j) →
      applyOk oracle owner repo td pairs f j = f j := by
  intro pairs
  induction pairs with
  | nil => intro f j _; rfl
  | cons hd tl ih =>
    obtain ⟨i, p⟩ := hd
    intro f j h
    dsimp only [applyOk]
    rw [ih _ j fun q hq => h q (List.mem_cons_of_mem _ hq)]
    have hne : i ≠ j := h (i, p) (List.mem_cons_self _ _)
    rw [if_neg fun hj => hne hj.symm]

theorem applyOk_mem (oracle : GiteeOracle) (owner repo td : String) :
    ∀ (pairs : List (Nat × String)) (f : Nat → String),
      (pairs.Pairwise fun a b => a.1 < b.1) →
      ∀ q ∈ pairs, ∀ u, oracle owner repo td q.1 q.2 = .ok u →
        applyOk oracle owner repo td pairs f q.1 = u := by
  intro pairs
  induction pairs with
  | nil => intro f _ q hq; cases hq
  | cons hd tl ih =>
    obtain ⟨i, p⟩ := hd
    intro f hpw q hq u hu
    rw [List.pairwise_cons] at hpw
    rcases List.mem_cons.mp hq with rfl | hq'
    · dsimp only [applyOk]
      rw [applyOk_skip oracle owner repo td tl _ i fun q' hq' => by
        have h2 := hpw.1 q' hq'; dsimp only at h2; omega]
      rw [if_pos rfl, uploadSingleImage_ok oracle owner repo td i p u hu]
    · dsimp only [applyOk]
      exact ih _ hpw.2 q hq' u hu

/-- C4: present slots are attempted in strictly ascending index order and the
Gitee batch stops at the first failing slot: earlier slots keep their
uploaded URLs, the failing slot and every later slot stay empty, `success`
is false and the error message names the failing slot and file. -/
theorem rest_batch_short_circuit (now : PyDateTime) (oracle : GiteeOracle)
    (ni : NodeInputs) (repoUrl owner repo : String)
    (pre suf : List (Nat × String)) (i : Nat) (p e : String)
    (hru : ni "repo_url" = some repoUrl)
    (hparse : parseRepoUrl repoUrl = .ok (owner, repo))
    (hsplit : getValidImagePaths ni = pre ++ (i, p) :: suf)
    (hpre : ∀ q ∈ pre, ∃ u, oracle owner repo (getTargetDir now) q.1 q.2 = .ok u)
    (hfail : oracle owner repo (getTargetDir now) i p = .error e) :
    ((getValidImagePaths ni).Pairwise fun a b => a.1 < b.1) ∧
    (executeGitee now oracle ni).success = false ∧
    (executeGitee now oracle ni).error_message =
      "Failed to upload image " ++ Nat.repr i ++ " (" ++ basename p
        ++ "): " ++ e ∧
    (executeGitee now oracle ni).urls i = "" ∧
    (∀ q ∈ suf, (executeGitee now oracle ni).urls q.1 = "") ∧
    (∀ q ∈ pre, ∀ u, oracle owner repo (getTargetDir now) q.1 q.2 = .ok u →
      (executeGitee now oracle ni).urls q.1 = u) := by
  have hsort := getValidImagePaths_sorted ni
  have hsort' := hsort
  rw [hsplit, List.pairwise_append] at hsort'
  have hne : ¬((getValidImagePaths ni).isEmpty = true) := by
    rw [hsplit]; simp
  have hres : executeGitee now oracle ni =
      { urls := applyOk oracle owner repo (getTargetDir now) pre fun _ => ""
        success := false
        error_message :=
          "Failed to upload image " ++ Nat.repr i ++ " (" ++ basename p
            ++ "): " ++ e } := by
    rw [executeGitee_eq, if_neg hne, hru]
    dsimp only
    rw [hparse]
    dsimp only
    rw [hsplit,
      uploadLoopG_pre oracle owner repo (getTargetDir now) pre ((i, p) :: suf)
        _ hpre,
      uploadLoopG_cons_err oracle owner repo (getTargetDir now) i p e suf
        _ hfail]
  refine ⟨hsort, ?_, ?_, ?_, ?_, ?_⟩
  · rw [hres]
  · rw [hres]
  · rw [hres]
    exact applyOk_skip oracle owner repo (getTargetDir now) pre _ i
      fun q hq => by
        have h2 := hsort'.2.2 q hq (i, p) (List.mem_cons_self _ _)
        dsimp only at h2; omega
  · intro q hq
    rw [hres]
    exact applyOk_skip oracle owner repo (getTargetDir now) pre _ q.1
      fun q' hq' => by
        have h2 := hsort'.2.2 q' hq' q (List.mem_cons_of_mem _ hq)
        omega
  · intro q hq u hu
    rw [hres]
    exact applyOk_mem oracle owner repo (getTargetDir now) pre _ hsort'.1
      q hq u hu

theorem rest_batch_short_circuit_witness :
    (executeGitee nowSample oracleSample niSample).success = false ∧
    (executeGitee nowSample oracleSample niSample).urls 1
        = "https://gitee.com/alice/pics/raw/a.png" ∧
    (executeGitee nowSample oracleSample niSample).urls 4 = "" ∧
    (executeGitee nowSample oracleSample niSample).urls 7 = "" ∧
    (executeGitee nowSample oracleSample niSample).error_message
        = "Failed to upload image 4 (b.png): boom" := by
  have h := rest_batch_short_circuit nowSample oracleSample niSample
    "alice/pics" "alice" "pics" [(1, "/tmp/a.png")] [(7, "/tmp/c.png")]
    4 "/tmp/b.png" "boom" rfl rfl rfl
    (by
      intro q hq
      simp only [List.mem_singleton] at hq
      subst hq
      exact ⟨"https://gitee.com/alice/pics/raw/a.png", rfl⟩)
    rfl
  refine ⟨h.2.1, ?_, ?_, ?_, ?_⟩
  · exact h.2.2.2.2.2 (1, "/tmp/a.png") (List.mem_singleton.mpr rfl)
      "https://gitee.com/alice/pics/raw/a.png" rfl
  · exact h.2.2.2.1
  · exact h.2.2.2.2.1 (7, "/tmp/c.png") (List.mem_singleton.mpr rfl)
  · rw [h.2.2.1]
    rfl

example : parseRepoUrl "gitee.com/alice/pics" = .ok ("alice", "pics") := rfl
example : parseRepoUrl "https://gitee.com/alice/pics.git" = .ok ("alice", "pics") := rfl
example : parseRepoUrl "git@gitee.com:alice/pics" = .ok ("alice", "pics") := rfl
example : parseRepoUrl "alice/pics" = .ok ("alice", "pics") := rfl
example : parseRepoUrl "alice/pics.git" = .ok ("alice", "pics.git") := rfl
example : parseRepoUrl "a/b/c" = .ok ("a", "b") := rfl
example : parseRepoUrl "a//b" = .ok ("a", "") := rfl
example : parseRepoUrl "not a url" = .error invalidMsg := rfl
example : parseRepoUrl " /alice/pics/ " = .ok ("alice", "pics") := rfl
example : parseRepoUrl "git://gitee.com/alice/pics/" = .ok ("alice", "pics") := rfl
example : parseRepoUrl "git@gitee.com:alice/.git" = .ok ("alice", ".git") := rfl

end AutotaskImages
